import Mathlib

/-!
Shallow embedding of the transaction pipeline of the online private bank
statement analyser (TypeScript sources), together with proofs settling the
frozen claims about its specification.

Modelling conventions:
* JavaScript strings are modelled as `List Char` (`JSStr`); JS string
  operations (`trim`, `toLowerCase`, `includes`, `split`, `+`) become the
  corresponding list operations.
* JS numbers carried by transactions are modelled as exact rationals `ℚ`;
  none of the claims depends on binary floating-point rounding.
* `Number(str)` and `parseFloat(str)` are modelled on the fragment of their
  grammar exercised by this program: optional ASCII whitespace, optional
  sign, decimal digits (and for `parseFloat` one decimal point and trailing
  garbage).  Hex/exponent forms and the `Infinity` keyword are outside the
  fragment.
* `Date` values are calendar triples (year, month 1-12, day); `new
  Date(y, m, d)` out-of-range normalisation follows ECMA `MakeDay`
  (month floor-division/modulo, then day rollover).  Comparing dates via
  `getTime()` coincides with lexicographic calendar order for such
  local-midnight dates and is modelled that way.
* Fallible code returns `Except`; JS `Map`/`Set` (insertion-ordered) become
  association lists updated in place.
-/

/- The Batteries rational-number operations are `@[irreducible]`, which
blocks `decide`/`rfl` evaluation of concrete amounts; re-expose them. -/
attribute [local semireducible] Rat.add Rat.mul Rat.sub Rat.inv Rat.ofScientific

/-- JavaScript strings, modelled as lists of characters. -/
abbrev JSStr := List Char

/-- Shorthand turning a Lean string literal into a modelled JS string. -/
def jstr (s : String) : JSStr := s.data

/-- ASCII whitespace recognised by `String.prototype.trim` (fragment). -/
def isJsWs (c : Char) : Bool := c = ' ' ∨ c = '\t' ∨ c = '\n' ∨ c = '\r'

/-- JS `trim()`: drop leading and trailing whitespace. -/
def jsTrim (s : JSStr) : JSStr :=
  ((s.dropWhile isJsWs).reverse.dropWhile isJsWs).reverse

/-- ASCII decimal digit test. -/
def isDigitC (c : Char) : Bool := '0' ≤ c ∧ c ≤ '9'

/-- Numeric value of a digit character. -/
def digitVal (c : Char) : Nat := c.toNat - 48

/-- Value of a string of decimal digits (most significant first). -/
def digitsToNat (l : JSStr) : Nat := l.foldl (fun a c => 10 * a + digitVal c) 0

/-- ASCII lower-casing, the fragment of JS `toLowerCase()` used here. -/
def asciiLower (c : Char) : Char :=
  if 'A' ≤ c ∧ c ≤ 'Z' then Char.ofNat (c.toNat + 32) else c

/-- ASCII upper-casing, the fragment of JS `toUpperCase()` used here. -/
def asciiUpper (c : Char) : Char :=
  if 'a' ≤ c ∧ c ≤ 'z' then Char.ofNat (c.toNat - 32) else c

/-- JS `toLowerCase()` on a whole string (ASCII fragment). -/
def jsLower (s : JSStr) : JSStr := s.map asciiLower

/-- Does `pat` occur at the start of `s`?  (Helper for substring search.) -/
def startsWithL : JSStr → JSStr → Bool
  | _, [] => true
  | [], _ :: _ => false
  | c :: s, p :: ps => c = p && startsWithL s ps

/-- JS `String.prototype.includes`: substring occurrence test. -/
def jsIncludes (s pat : JSStr) : Bool :=
  match s with
  | [] => startsWithL [] pat
  | _ :: rest => startsWithL s pat || jsIncludes rest pat

/-- Decimal digit character for a value `< 10`. -/
def digitChar10 (n : Nat) : Char := Char.ofNat (48 + n)

/-- Decimal digits of a natural number, most significant first.  The first
argument is structural fuel; `natStr` supplies enough of it. -/
def natStrAux : Nat → Nat → JSStr
  | 0, _ => []
  | fuel + 1, n =>
      if n < 10 then [digitChar10 n]
      else natStrAux fuel (n / 10) ++ [digitChar10 (n % 10)]

/-- JS `String(n)` for a nonnegative integer. -/
def natStr (n : Nat) : JSStr := natStrAux (n + 1) n

/-- JS `String(i)` for an integer. -/
def intStr (i : Int) : JSStr :=
  if i < 0 then '-' :: natStr i.natAbs else natStr i.natAbs

/-- `String(n).padStart(2, '0')` as used for month and week numbers. -/
def pad2 (n : Nat) : JSStr := if n < 10 then '0' :: natStr n else natStr n

/-- `Number(str)` on the integer fragment: optional whitespace, optional
sign, decimal digits.  The empty (or all-whitespace) string converts to 0;
anything outside the fragment is NaN (`none`). -/
def jsNumberInt (s : JSStr) : Option Int :=
  let t := jsTrim s
  if t = [] then some 0 else
  match t with
  | '-' :: rest =>
      if rest ≠ [] ∧ rest.all isDigitC then some (-(digitsToNat rest : Int)) else none
  | '+' :: rest =>
      if rest ≠ [] ∧ rest.all isDigitC then some (digitsToNat rest : Int) else none
  | _ => if t.all isDigitC then some (digitsToNat t : Int) else none

/-- `parseFloat(str)` on the fragment used here: skip leading whitespace,
optional sign, then the longest prefix shaped `digits[.digits]`; at least
one digit must be consumed, otherwise the result is NaN (`none`).
Characters after the numeric prefix are ignored, exactly as in JS. -/
def parseFloatQ (s : JSStr) : Option ℚ :=
  let t := s.dropWhile isJsWs
  let (sign, t1) : ℚ × JSStr :=
    match t with
    | '-' :: r => (-1, r)
    | '+' :: r => (1, r)
    | _ => (1, t)
  let intPart := t1.takeWhile isDigitC
  let rest := t1.dropWhile isDigitC
  let fracPart :=
    match rest with
    | '.' :: r => r.takeWhile isDigitC
    | _ => []
  if intPart = [] ∧ fracPart = [] then none
  else
    some (sign * (mkRat (digitsToNat intPart) 1 +
      mkRat (digitsToNat fracPart) (10 ^ fracPart.length)))

/-- Proleptic-Gregorian leap-year test (as implied by ECMA `DaysInYear`). -/
def isLeapYear (y : Int) : Bool :=
  y.emod 4 = 0 ∧ (y.emod 100 ≠ 0 ∨ y.emod 400 = 0)

/-- Days in a (1-based) month of a given year. -/
def daysInMonth (y : Int) (m : Nat) : Nat :=
  if m = 2 then (if isLeapYear y then 29 else 28)
  else if m = 4 ∨ m = 6 ∨ m = 9 ∨ m = 11 then 30
  else 31

/-- A calendar date: the model of a JS `Date` holding a local midnight.
`month` is 1-based (so `getMonth()` is `month - 1`). -/
structure NDate where
  year : Int
  month : Nat
  day : Nat
deriving DecidableEq, Repr

/-- Forward day-rollover of ECMA `MakeDay`: while the day exceeds the month
length, move to the next month.  Structural fuel bounds the iteration; the
callers supply at least the day count, which always suffices because every
step removes at least 28 days. -/
def normFwd : Nat → Int → Nat → Nat → NDate
  | 0, y, m, d => ⟨y, m, d⟩
  | fuel + 1, y, m, d =>
      if d ≤ daysInMonth y m then ⟨y, m, d⟩
      else if m = 12 then normFwd fuel (y + 1) 1 (d - daysInMonth y m)
      else normFwd fuel y (m + 1) (d - daysInMonth y m)

/-- Backward day-rollover of ECMA `MakeDay` for day values `≤ 0`: borrow
days from previous months until the day becomes positive. -/
def normBwd : Nat → Int → Nat → Int → NDate
  | 0, y, m, _ => ⟨y, m, 1⟩
  | fuel + 1, y, m, d =>
      let py : Int := if m = 1 then y - 1 else y
      let pm : Nat := if m = 1 then 12 else m - 1
      let d' := d + (daysInMonth py pm : Int)
      if 1 ≤ d' then ⟨py, pm, d'.toNat⟩ else normBwd fuel py pm d'

/-- `new Date(y, monthIndex, d)` (ECMA `MakeDay`): months are normalised by
floor-division, then out-of-range days roll over into adjacent months. -/
def mkJSDate (y mIdx d : Int) : NDate :=
  let total := y * 12 + mIdx
  let y1 := total.ediv 12
  let m1 := (total.emod 12).toNat + 1
  if 1 ≤ d then normFwd d.toNat y1 m1 d.toNat
  else normBwd (1 - d).toNat y1 m1 d

/-- Lexicographic calendar order; for the local-midnight dates this program
builds, it coincides with comparison of `getTime()` values. -/
def dateLE (a b : NDate) : Bool :=
  a.year < b.year ∨ (a.year = b.year ∧
    (a.month < b.month ∨ (a.month = b.month ∧ a.day ≤ b.day)))

/-- Hinnant's `days_from_civil`: days since 1970-01-01 of a calendar date.
Underlies `getTime()`-based arithmetic (`Date.UTC`, day stepping). -/
def epochDay (dt : NDate) : Int :=
  let y : Int := dt.year - (if dt.month ≤ 2 then 1 else 0)
  let era : Int := (if 0 ≤ y then y else y - 399).tdiv 400
  let yoe : Int := y - era * 400
  let mp : Int := (dt.month : Int) + (if 2 < (dt.month : Int) then -3 else 9)
  let doy : Int := (153 * mp + 2).tdiv 5 + (dt.day : Int) - 1
  let doe : Int := yoe * 365 + yoe.tdiv 4 - yoe.tdiv 100 + doy
  era * 146097 + doe - 719468

/-- Hinnant's `civil_from_days`, inverse of `epochDay`. -/
def civilFromDays (z0 : Int) : NDate :=
  let z : Int := z0 + 719468
  let era : Int := (if 0 ≤ z then z else z - 146096).tdiv 146097
  let doe : Int := z - era * 146097
  let yoe : Int := (doe - doe.tdiv 1460 + doe.tdiv 36524 - doe.tdiv 146096).tdiv 365
  let y : Int := yoe + era * 400
  let doy : Int := doe - (365 * yoe + yoe.tdiv 4 - yoe.tdiv 100)
  let mp : Int := (5 * doy + 2).tdiv 153
  let d : Int := doy - (153 * mp + 2).tdiv 5 + 1
  let m : Int := mp + (if mp < 10 then 3 else -9)
  ⟨y + (if m ≤ 2 then 1 else 0), m.toNat, d.toNat⟩

example : epochDay ⟨1970, 1, 1⟩ = 0 := by decide
example : epochDay ⟨2024, 5, 1⟩ = 19844 := by decide
example : civilFromDays 19844 = ⟨2024, 5, 1⟩ := by decide
example : mkJSDate 2024 1 30 = ⟨2024, 3, 1⟩ := by decide
example : mkJSDate 2024 4 1 = ⟨2024, 5, 1⟩ := by decide
example : mkJSDate 2024 12 1 = ⟨2025, 1, 1⟩ := by decide
example : mkJSDate 2024 0 0 = ⟨2023, 12, 31⟩ := by decide

/-! ## Scalar parsers (`src/web/src/core/types`, part_004) -/

/-- `parseEuropeanDecimal`: strip every '.', replace the FIRST ',' with '.'
(JS `replace` with a string pattern replaces only the first occurrence),
then `parseFloat`; throw when the result is NaN. -/
def replaceFirstComma : JSStr → JSStr
  | [] => []
  | ',' :: r => '.' :: r
  | c :: r => c :: replaceFirstComma r

/-- `parseEuropeanDecimal(value)` from the types module.  Errors model the
thrown `Error` for NaN results. -/
def parseEuropeanDecimal (value : JSStr) : Except String ℚ :=
  let normalized := replaceFirstComma (value.filter (fun c => ¬ (c = '.')))
  match parseFloatQ normalized with
  | none => .error "Invalid number format"
  | some q => .ok q

/-- `parseNordeaDate(value)`: split on '/', demand exactly three parts,
convert each with `Number`, build `new Date(year, month - 1, day)` and fail
if the date is invalid (i.e. some component converted to NaN). -/
def parseNordeaDate (value : JSStr) : Except String NDate :=
  match value.splitOn '/' with
  | [p1, p2, p3] =>
      match jsNumberInt p1, jsNumberInt p2, jsNumberInt p3 with
      | some y, some m, some d => .ok (mkJSDate y (m - 1) d)
      | _, _, _ => .error "Invalid date"
  | _ => .error "Invalid date format"

/-! ## Transaction data model (`src/web/src/core/types`, part_004) -/

/-- A normalised bank transaction.  `category`, `contributor` and
`isDuplicate` are absent (`none`) until later pipeline stages add them. -/
structure Transaction where
  id : JSStr
  date : NDate
  amount : ℚ
  title : JSStr
  name : JSStr
  referenceNumber : JSStr
  message : JSStr
  sourceFile : JSStr
  category : Option JSStr := none
  contributor : Option JSStr := none
  isDuplicate : Option Bool := none
deriving DecidableEq, Repr

/-- JS truthiness of the optional `category` field: `undefined` and the
empty string are falsy. -/
def hasCategory (t : Transaction) : Bool :=
  match t.category with
  | none => false
  | some s => ¬ (s = [])

/-! ## CSV ingestion (`parseNordeaCSV` / `parseMultipleCSVs`, part_000) -/

/-- The `CSVParseError` thrown by ingestion: message, filename, optional
(1-indexed) row number. -/
structure CSVParseError where
  message : String
  filename : JSStr
  row : Option Nat := none
deriving DecidableEq, Repr

/-- The raw string fields of one validated CSV row (the ten named columns
of `RawNordeaRowSchema`). -/
structure RawNordeaRow where
  bookingDate : JSStr
  amount : JSStr
  sender : JSStr
  recipient : JSStr
  name : JSStr
  title : JSStr
  message : JSStr
  referenceNumber : JSStr
  balance : JSStr
  currency : JSStr
deriving DecidableEq, Repr

/-- Association-list lookup, the model of reading one named field of a
header-keyed Papa Parse row object. -/
def lookupField : List (JSStr × JSStr) → JSStr → Option JSStr
  | [], _ => none
  | (k, v) :: rest, key => if k = key then some v else lookupField rest key

/-- The ten expected column names of a Nordea CSV. -/
def expectedColumns : List JSStr :=
  [jstr "Booking date", jstr "Amount", jstr "Sender", jstr "Recipient",
   jstr "Name", jstr "Title", jstr "Message", jstr "Reference number",
   jstr "Balance", jstr "Currency"]

/-- Zod validation of one row object (`RawNordeaRowSchema.safeParse`): all
ten named fields must be present. -/
def validateRow (fields : List (JSStr × JSStr)) : Option RawNordeaRow :=
  match lookupField fields (jstr "Booking date"), lookupField fields (jstr "Amount"),
        lookupField fields (jstr "Sender"), lookupField fields (jstr "Recipient"),
        lookupField fields (jstr "Name"), lookupField fields (jstr "Title"),
        lookupField fields (jstr "Message"), lookupField fields (jstr "Reference number"),
        lookupField fields (jstr "Balance"), lookupField fields (jstr "Currency") with
  | some bd, some am, some se, some re, some na, some ti, some me, some rn,
    some ba, some cu => some ⟨bd, am, se, re, na, ti, me, rn, ba, cu⟩
  | _, _, _, _, _, _, _, _, _, _ => none

/-- Papa Parse on the fragment used here (`header: true`, `delimiter: ';'`,
`skipEmptyLines: true`, no quoting in the modelled inputs): split the
trimmed content into non-empty lines, split every line on ';'; the first
line is the header.  A data row whose field count differs from the header
produces a `FieldMismatch` parse error (surfaced by the caller).  -/
def papaLines (content : JSStr) : List (List JSStr) :=
  ((jsTrim content).splitOn '\n').filter (fun l => ¬ (l = [])) |>.map
    (fun l => l.splitOn ';')

/-- One transformed data row: index `i` over all data rows, `none` when the
row is skipped for a blank booking date. -/
def transformRow (filename : JSStr) (i : Nat) (raw : RawNordeaRow) :
    Except CSVParseError (Option Transaction) :=
  if jsTrim raw.bookingDate = [] then .ok none
  else
    match parseNordeaDate raw.bookingDate, parseEuropeanDecimal raw.amount with
    | .ok date, .ok amount =>
        .ok (some
          { id := filename ++ ('-' :: natStr i)
            date := date
            amount := amount
            title := jsTrim raw.title
            name := jsTrim raw.name
            referenceNumber := raw.referenceNumber
            message := jsTrim raw.message
            sourceFile := filename })
    | _, _ => .error ⟨"Failed to parse row", filename, some (i + 1)⟩

/-- The row loop of `parseNordeaCSV`: validate each row against the schema,
skip blank-date rows, transform the rest, fail fast on the first bad row. -/
def parseRows (filename : JSStr) (headers : List JSStr) :
    Nat → List (List JSStr) → Except CSVParseError (List Transaction)
  | _, [] => .ok []
  | i, row :: rest =>
      match validateRow (headers.zip row) with
      | none => .error ⟨"Invalid row data", filename, some (i + 1)⟩
      | some raw =>
          match transformRow filename i raw with
          | .error e => .error e
          | .ok none => parseRows filename headers (i + 1) rest
          | .ok (some t) =>
              match parseRows filename headers (i + 1) rest with
              | .error e => .error e
              | .ok ts => .ok (t :: ts)

/-- `parseNordeaCSV(csvString, filename)`: empty check, structural parse,
field-count check (Papa `FieldMismatch` errors), no-data check, missing
required columns check, then the per-row transformation. -/
def parseNordeaCSV (csvString filename : JSStr) : Except CSVParseError (List Transaction) :=
  if jsTrim csvString = [] then .error ⟨"CSV file is empty", filename, none⟩
  else
    match papaLines csvString with
    | [] => .error ⟨"CSV file is empty", filename, none⟩
    | headers :: dataRows =>
        if dataRows.any (fun r => ¬ (r.length = headers.length)) then
          .error ⟨"Parse error", filename, none⟩
        else if dataRows = [] then
          .error ⟨"CSV file contains no data rows", filename, none⟩
        else if (expectedColumns.filter (fun c => ¬ headers.contains c)) ≠ [] then
          .error ⟨"Missing required columns", filename, none⟩
        else
          parseRows filename headers 0 dataRows

/-- The comparator `(a, b) => a.date.getTime() - b.date.getTime()` of the
combined sort, as a relation. -/
def txDateLE (a b : Transaction) : Prop := dateLE a.date b.date = true

instance : DecidableRel txDateLE := fun a b => by
  unfold txDateLE; infer_instance

/-- `parseMultipleCSVs(files)`: parse every file in order (fail fast on the
first `CSVParseError`), concatenate, then stable-sort the combined list
ascending by date (`Array.prototype.sort` is stable, comparator
`a.date.getTime() - b.date.getTime()`). -/
def parseMultipleCSVs (files : List (JSStr × JSStr)) :
    Except CSVParseError (List Transaction) :=
  match files.foldlM
      (fun (acc : List Transaction) (f : JSStr × JSStr) =>
        (match parseNordeaCSV f.2 f.1 with
         | .error e => .error e
         | .ok ts => .ok (acc ++ ts) : Except CSVParseError (List Transaction)))
      ([] : List Transaction) with
  | .error e => .error e
  | .ok all => .ok (all.insertionSort txDateLE)

/-! ## Categorization engine (part_001) -/

/-- Category mapping match mode. -/
inductive MatchType where
  | exact
  | contains
deriving DecidableEq, Repr

/-- A user-defined category rule. -/
structure CategoryMapping where
  pattern : JSStr
  category : JSStr
  matchType : MatchType
deriving DecidableEq, Repr

/-- `titleMatchesMapping(title, mapping)`: case-insensitive full equality
for `exact`, case-insensitive substring test for `contains`. -/
def titleMatchesMapping (title : JSStr) (mapping : CategoryMapping) : Bool :=
  let normalizedTitle := jsLower title
  let normalizedPattern := jsLower mapping.pattern
  match mapping.matchType with
  | .exact => normalizedTitle = normalizedPattern
  | .contains => jsIncludes normalizedTitle normalizedPattern

/-- The per-transaction body of `applyCategories`: expenses lacking a
(truthy) category get the first matching exact mapping, else the first
matching contains mapping (the for-loops with early return are `find?`). -/
def applyCategoriesOne (exactMappings containsMappings : List CategoryMapping)
    (t : Transaction) : Transaction :=
  if 0 ≤ t.amount then t
  else if hasCategory t then t
  else
    let title := jsTrim t.title
    match exactMappings.find? (fun m => titleMatchesMapping title m) with
    | some m => { t with category := some m.category }
    | none =>
        match containsMappings.find? (fun m => titleMatchesMapping title m) with
        | some m => { t with category := some m.category }
        | none => t

/-- `applyCategories(transactions, mappings)`. -/
def applyCategories (transactions : List Transaction)
    (mappings : List CategoryMapping) : List Transaction :=
  let exactMappings := mappings.filter (fun m => m.matchType = MatchType.exact)
  let containsMappings := mappings.filter (fun m => m.matchType = MatchType.contains)
  transactions.map (applyCategoriesOne exactMappings containsMappings)

/-! ## Contributor identifier (part_002) -/

/-- Is `c` a lower-case ASCII letter? -/
def isLowerAZ (c : Char) : Bool := 'a' ≤ c ∧ c ≤ 'z'

/-- `extractNameFromTitle(title)`: lower-case, then the first maximal run
of letters `a`-`z` (the regex `/[a-z]+/`), or the empty string. -/
def extractNameFromTitle (title : JSStr) : JSStr :=
  ((jsLower title).dropWhile (fun c => ¬ isLowerAZ c)).takeWhile isLowerAZ

/-- `normalizeName(name)`: capitalise the first letter, lower-case the
rest; empty stays empty. -/
def normalizeName (name : JSStr) : JSStr :=
  match name with
  | [] => []
  | c :: rest => asciiUpper c :: jsLower rest

/-- A ranked contributor. -/
structure Contributor where
  name : JSStr
  total : ℚ
  transactionCount : Nat
deriving DecidableEq, Repr

/-- Insertion-ordered map update (`Map.prototype.set`): overwrite in place
when the key exists, append otherwise. -/
def setAssoc {V : Type} : List (JSStr × V) → JSStr → V → List (JSStr × V)
  | [], k, v => [(k, v)]
  | (k', v') :: rest, k, v =>
      if k' = k then (k', v) :: rest else (k', v') :: setAssoc rest k v

/-- Insertion-ordered map read (`Map.prototype.get`). -/
def getAssoc {V : Type} : List (JSStr × V) → JSStr → Option V
  | [], _ => none
  | (k', v) :: rest, k => if k' = k then some v else getAssoc rest k

/-- Raw name source of a transaction: the trimmed `Name` field when
non-empty (truthy), otherwise the trimmed title. -/
def rawContributorName (t : Transaction) : JSStr :=
  if jsTrim t.name = [] then jsTrim t.title else jsTrim t.name

/-- The grouping fold of `findTopContributors`: accumulate total and count
per extracted name, skipping transactions without an extractable name. -/
def contributorFold (acc : List (JSStr × (ℚ × Nat))) (t : Transaction) :
    List (JSStr × (ℚ × Nat)) :=
  let extractedName := extractNameFromTitle (rawContributorName t)
  if extractedName = [] then acc
  else
    let existing := (getAssoc acc extractedName).getD (0, 0)
    setAssoc acc extractedName (existing.1 + t.amount, existing.2 + 1)

/-- `findTopContributors(transactions, count)`: filter to strictly positive
amounts, group by extracted name in insertion order, normalise names,
stable-sort descending by total, take the first `count`. -/
def findTopContributors (transactions : List Transaction) (count : Nat) :
    List Contributor :=
  let contributorMap :=
    (transactions.filter (fun t => 0 < t.amount)).foldl contributorFold []
  let contributors := contributorMap.map
    (fun p => Contributor.mk (normalizeName p.1) p.2.1 p.2.2)
  (contributors.insertionSort (fun a b => b.total ≤ a.total)).take count

/-- `tagContributions(transactions, selectedNames)`: income transactions
get `contributor` set to the normalised extracted name when it matches a
selected name case-insensitively, else to the literal label `Other`;
non-positive amounts pass through unchanged. -/
def tagContributions (transactions : List Transaction)
    (selectedNames : List JSStr) : List Transaction :=
  let normalizedSelected := selectedNames.map jsLower
  transactions.map (fun t =>
    if t.amount ≤ 0 then t
    else
      let extractedName := extractNameFromTitle (rawContributorName t)
      if ¬ (extractedName = []) ∧ normalizedSelected.contains (jsLower extractedName) then
        { t with contributor := some (normalizeName extractedName) }
      else
        { t with contributor := some (jstr "Other") })

/-! ## Deduplication engine (part_003) -/

/-- ISO day string `YYYY-MM-DD` of a date: the model of
`date.toISOString().split('T')[0]`.  For the local-midnight dates built by
this program and a fixed UTC offset, this is an injective function of the
calendar day; the time-zone shift common to all transactions of a session
is abstracted away. -/
def isoDayString (d : NDate) : JSStr :=
  intStr d.year ++ ('-' :: pad2 d.month) ++ ('-' :: pad2 d.day)

/-- Stringification of an amount inside a template literal.  Stands in for
JS number-to-string (injective on doubles up to `0`/`-0`, which compare
equal here anyway); it never contains `'|'` or `'T'`. -/
def amountStr (q : ℚ) : JSStr := intStr q.num ++ ('/' :: natStr q.den)

/-- `getTransactionKey(t)`: the `'|'`-joined identity key
`date|amount|title|referenceNumber`.  The join is not escaped, so distinct
(title, reference) pairs can produce the same key. -/
def getTransactionKey (t : Transaction) : JSStr :=
  isoDayString t.date ++ ('|' :: amountStr t.amount) ++
    ('|' :: t.title) ++ ('|' :: t.referenceNumber)

/-- A duplicate group. -/
structure DuplicateGroup where
  transactions : List Transaction
  date : NDate
  amount : ℚ
  title : JSStr
  referenceNumber : JSStr
deriving DecidableEq, Repr

/-- The comparator of the duplicate-group sort, as a relation. -/
def groupDateLE (a b : DuplicateGroup) : Prop := dateLE a.date b.date = true

instance : DecidableRel groupDateLE := fun a b => by
  unfold groupDateLE; infer_instance

/-- The grouping fold of `findDuplicates` (insertion-ordered `Map` of
key → bucket; each transaction is appended to its key's bucket). -/
def groupByKey (transactions : List Transaction) : List (JSStr × List Transaction) :=
  transactions.foldl
    (fun groups t =>
      setAssoc groups (getTransactionKey t) ((getAssoc groups (getTransactionKey t)).getD [] ++ [t]))
    []

/-- Distinct-element count, the model of `new Set(xs).size`. -/
def distinctCount (xs : List JSStr) : Nat := xs.dedup.length

/-- `findDuplicates(transactions)`: keep buckets with ≥ 2 members from ≥ 2
distinct source files, represent each by its first member's fields, sort
ascending by date (stable). -/
def findDuplicates (transactions : List Transaction) : List DuplicateGroup :=
  let duplicateGroups := (groupByKey transactions).filterMap
    (fun kg =>
      match kg.2 with
      | [] => none
      | t0 :: rest =>
          if 2 ≤ (t0 :: rest).length ∧ 2 ≤ distinctCount ((t0 :: rest).map (fun t => t.sourceFile))
          then some (DuplicateGroup.mk (t0 :: rest) t0.date t0.amount t0.title t0.referenceNumber)
          else none)
  duplicateGroups.insertionSort groupDateLE

/-- `getTransactionsToRemove(groups)`: all but the first member of each
group, in group order. -/
def getTransactionsToRemove (groups : List DuplicateGroup) : List Transaction :=
  groups.flatMap (fun g => g.transactions.drop 1)

/-- `removeDuplicates(transactions, toRemove)`: set-difference by id. -/
def removeDuplicates (transactions toRemove : List Transaction) : List Transaction :=
  let removeIds := toRemove.map (fun t => t.id)
  transactions.filter (fun t => ¬ removeIds.contains t.id)

/-- `markDuplicates(transactions, duplicateGroups)`: a fresh list where
`isDuplicate` is true exactly on ids occurring in some group. -/
def markDuplicates (transactions : List Transaction)
    (duplicateGroups : List DuplicateGroup) : List Transaction :=
  let duplicateIds := duplicateGroups.flatMap (fun g => g.transactions.map (fun t => t.id))
  transactions.map (fun t => { t with isDuplicate := some (duplicateIds.contains t.id) })

/-! ## Aggregation: months and cash flow (contributions module, part_005) -/

/-- `formatMonth(date)`: the `YYYY-MM` bucket key
(`getFullYear()` + '-' + zero-padded `getMonth() + 1`). -/
def formatMonth (d : NDate) : JSStr :=
  intStr d.year ++ ('-' :: pad2 d.month)

/-- Zero-based month counter of a date (`year * 12 + monthIndex`), the
order in which `getAllMonthsInRange` steps first-of-month `Date`s. -/
def monthIdxOf (d : NDate) : Int := d.year * 12 + (d.month : Int) - 1

/-- First day of the month with the given month counter. -/
def dateOfMonthIdx (i : Int) : NDate := ⟨i.ediv 12, (i.emod 12).toNat + 1, 1⟩

/-- The loop body of `getAllMonthsInRange`: emit `n` consecutive month
keys starting at month counter `a`. -/
def monthKeysFrom (a : Int) : Nat → List JSStr
  | 0 => []
  | n + 1 => formatMonth (dateOfMonthIdx a) :: monthKeysFrom (a + 1) n

/-- `getAllMonthsInRange(start, end)`: every `YYYY-MM` key from `start`'s
month to `end`'s month inclusive (the `while (current <= endMonth)` loop
over first-of-month dates). -/
def getAllMonthsInRange (start e : NDate) : List JSStr :=
  let a := monthIdxOf start
  let b := monthIdxOf e
  if a ≤ b then monthKeysFrom a ((b - a).toNat + 1) else []

/-- One `MonthlyCashFlow` record. -/
structure MonthlyCashFlow where
  month : JSStr
  income : ℚ
  outgoings : ℚ
  net : ℚ
  cumulativeBalance : ℚ
deriving DecidableEq, Repr

/-- Accumulation step of `calculateMonthlyCashFlow`: positive amounts add
to the month's income, other amounts add their absolute value to the
month's outgoings. -/
def cashFlowFold (acc : List (JSStr × (ℚ × ℚ))) (t : Transaction) :
    List (JSStr × (ℚ × ℚ)) :=
  let month := formatMonth t.date
  let data := (getAssoc acc month).getD (0, 0)
  if 0 < t.amount then setAssoc acc month (data.1 + t.amount, data.2)
  else setAssoc acc month (data.1, data.2 + |t.amount|)

/-- Output loop of `calculateMonthlyCashFlow`: one record per requested
month, with `net = income - outgoings` and a running cumulative balance. -/
def cashFlowOut (monthlyData : List (JSStr × (ℚ × ℚ))) :
    ℚ → List JSStr → List MonthlyCashFlow
  | _, [] => []
  | cum, month :: rest =>
      let data := (getAssoc monthlyData month).getD (0, 0)
      let net := data.1 - data.2
      ⟨month, data.1, data.2, net, cum + net⟩ :: cashFlowOut monthlyData (cum + net) rest

/-- `calculateMonthlyCashFlow(transactions, allMonths)`. -/
def calculateMonthlyCashFlow (transactions : List Transaction)
    (allMonths : List JSStr) : List MonthlyCashFlow :=
  let init := allMonths.foldl (fun m month => setAssoc m month ((0 : ℚ), (0 : ℚ))) []
  let monthlyData := transactions.foldl cashFlowFold init
  cashFlowOut monthlyData 0 allMonths

/-! ## Data quality (`dataQuality.ts`) -/

/-- `formatWeek` on an epoch-day number: shift to the Thursday of the ISO
week, then `ceil((thursday - jan1 + 1) / 7)` is the ISO week number. -/
def formatWeekD (days : Int) : JSStr :=
  let w := (days + 4).emod 7
  let dayNum : Int := if w = 0 then 7 else w
  let thuD := days + 4 - dayNum
  let td := civilFromDays thuD
  let yearStart := epochDay ⟨td.year, 1, 1⟩
  let weekNum := (thuD - yearStart + 1 + 6).fdiv 7
  intStr td.year ++ ('-' :: 'W' :: pad2 weekNum.toNat)

/-- `formatWeek(date)`: ISO week key `YYYY-Www` of a calendar date. -/
def formatWeek (d : NDate) : JSStr := formatWeekD (epochDay d)

/-- Lexicographic string order (default JS `Array.prototype.sort`
comparator on the ASCII strings used here). -/
def strLE (a b : JSStr) : Bool :=
  match a, b with
  | [], _ => true
  | _ :: _, [] => false
  | c :: a', d :: b' => c < d ∨ (c = d ∧ strLE a' b')

/-- Week keys of `n` consecutive days starting at epoch day `a` (the
day-stepping `while (current <= end)` loop). -/
def weekKeysFrom (a : Int) : Nat → List JSStr
  | 0 => []
  | n + 1 => formatWeekD a :: weekKeysFrom (a + 1) n

/-- `getAllWeeksInRange(start, end)`: distinct ISO week keys of every day
in the range, sorted lexicographically (`[...set].sort()`). -/
def getAllWeeksInRange (start e : NDate) : List JSStr :=
  let a := epochDay start
  let b := epochDay e
  let weeks := if a ≤ b then weekKeysFrom a ((b - a).toNat + 1) else []
  (weeks.dedup).insertionSort (fun a b => strLE a b)

/-- `findMissingWeeks(transactions, allWeeks)`. -/
def findMissingWeeks (transactions : List Transaction) (allWeeks : List JSStr) :
    List JSStr :=
  let weeksWithData := transactions.map (fun t => formatWeek t.date)
  allWeeks.filter (fun week => ¬ weeksWithData.contains week)

/-- `findMissingMonths(transactions, allMonths)`. -/
def findMissingMonths (transactions : List Transaction) (allMonths : List JSStr) :
    List JSStr :=
  let monthsWithData := transactions.map (fun t => formatMonth t.date)
  allMonths.filter (fun month => ¬ monthsWithData.contains month)

/-- Strict `Date` comparison (`getTime()` order on local midnights). -/
def dateLT (a b : NDate) : Bool := ¬ dateLE b a

/-- `getDateRange(transactions)`: min and max transaction date, `none` for
an empty list. -/
def getDateRange (transactions : List Transaction) : Option (NDate × NDate) :=
  match transactions with
  | [] => none
  | t0 :: _ =>
      some (transactions.foldl
        (fun r t =>
          ((if dateLT t.date r.1 then t.date else r.1),
           (if dateLT r.2 t.date then t.date else r.2)))
        (t0.date, t0.date))

/-- `countSourceFiles(transactions)`: `new Set(map sourceFile).size`. -/
def countSourceFiles (transactions : List Transaction) : Nat :=
  distinctCount (transactions.map (fun t => t.sourceFile))

/-- The `DataQuality` record. -/
structure DataQuality where
  rangeStart : NDate
  rangeEnd : NDate
  totalFiles : Nat
  totalTransactions : Nat
  incomeTransactions : Nat
  expenseTransactions : Nat
  duplicatesFound : Nat
  duplicatesRemoved : Nat
  missingWeeks : List JSStr
  missingMonths : List JSStr
deriving DecidableEq, Repr

/-- `calculateDataQuality(transactions, duplicatesRemoved)`.  The `now`
parameter makes the impure `new Date()` of the empty-input branch
explicit. -/
def calculateDataQuality (now : NDate) (transactions : List Transaction)
    (duplicatesRemoved : Nat) : DataQuality :=
  match getDateRange transactions with
  | none =>
      ⟨now, now, 0, 0, 0, 0, 0, duplicatesRemoved, [], []⟩
  | some range =>
      let allMonths := getAllMonthsInRange range.1 range.2
      let allWeeks := getAllWeeksInRange range.1 range.2
      let incomeTransactions := (transactions.filter (fun t => 0 < t.amount)).length
      let expenseTransactions := (transactions.filter (fun t => t.amount < 0)).length
      ⟨range.1, range.2, countSourceFiles transactions, transactions.length,
       incomeTransactions, expenseTransactions, duplicatesRemoved, duplicatesRemoved,
       findMissingWeeks transactions allWeeks,
       findMissingMonths transactions allMonths⟩

example : formatWeek ⟨2024, 5, 15⟩ = jstr "2024-W20" := by decide
example : formatMonth ⟨2024, 5, 1⟩ = jstr "2024-05" := by decide
example : getAllMonthsInRange ⟨2024, 11, 20⟩ ⟨2025, 2, 3⟩ =
    [jstr "2024-11", jstr "2024-12", jstr "2025-01", jstr "2025-02"] := by decide

/-! ## Helper lemmas -/

/-- `normFwd` is the identity once the day fits in the month. -/
theorem normFwd_done (fuel : Nat) (y : Int) (m d : Nat)
    (h : d ≤ daysInMonth y m) : normFwd (fuel + 1) y m d = ⟨y, m, d⟩ := by
  simp [normFwd, h]

/-- `new Date(y, m - 1, d)` returns the components unchanged when they
denote a real calendar date. -/
theorem mkJSDate_valid (y m d : Int) (h1 : 1 ≤ m) (h2 : m ≤ 12)
    (h3 : 1 ≤ d) (h4 : d ≤ (daysInMonth y m.toNat : Int)) :
    mkJSDate y (m - 1) d = ⟨y, m.toNat, d.toNat⟩ := by
  have hediv : (y * 12 + (m - 1)).ediv 12 = y := by
    have h : (y * 12 + (m - 1)) / 12 = y := by omega
    exact h
  have hemod : (y * 12 + (m - 1)).emod 12 = m - 1 := by
    have h : (y * 12 + (m - 1)) % 12 = m - 1 := by omega
    exact h
  have hm1 : (m - 1).toNat + 1 = m.toNat := by omega
  obtain ⟨n, hn⟩ : ∃ n, d.toNat = n + 1 := ⟨d.toNat - 1, by omega⟩
  simp only [mkJSDate, hediv, hemod, hm1, if_pos h3, hn]
  exact normFwd_done n y m.toNat (n + 1) (by omega)

/-- Decidable equality for `Except`, for evaluating concrete parser
results. -/
instance {e a : Type} [DecidableEq e] [DecidableEq a] :
    DecidableEq (Except e a) := fun x y =>
  match x, y with
  | .error u, .error v =>
      if h : u = v then .isTrue (by rw [h]) else
        .isFalse (fun c => h (Except.error.inj c))
  | .ok u, .ok v =>
      if h : u = v then .isTrue (by rw [h]) else
        .isFalse (fun c => h (Except.ok.inj c))
  | .error _, .ok _ => .isFalse (fun c => Except.noConfusion c)
  | .ok _, .error _ => .isFalse (fun c => Except.noConfusion c)

/-! ## Claim C3: `parseNordeaDate` error conditions -/

/-- A real calendar date in the sense of the claim: the month exists and
the day exists within that month of that year. -/
def isValidCalendarDate (y m d : Int) : Prop :=
  1 ≤ m ∧ m ≤ 12 ∧ 1 ≤ d ∧ d ≤ (daysInMonth y m.toNat : Int)

instance (y m d : Int) : Decidable (isValidCalendarDate y m d) := by
  unfold isValidCalendarDate; infer_instance

/-- Counterexample to C3: `"2024/2/30"` names no valid calendar date
(February 2024 has 29 days), yet `parseNordeaDate` does NOT throw — the
`new Date(2024, 1, 30)` rollover silently yields 2024-03-01. -/
theorem parseNordeaDate_invalid_day_no_error :
    ¬ isValidCalendarDate 2024 2 30 ∧
      parseNordeaDate (jstr "2024/2/30") = .ok ⟨2024, 3, 1⟩ := by
  constructor
  · decide
  · decide

/-- C3, amended: `parseNordeaDate` succeeds iff the input splits into
exactly three '/'-parts, each of which `Number` converts without NaN
(out-of-range month/day values roll over rather than erroring); on parts
denoting a valid calendar date `YYYY/M/D` it returns exactly that year,
month (0-based index `m - 1`) and day; `"2024/5/1"` gives 2024-05-01 and
`"2024-05-01"` raises the format error. -/
theorem parseNordeaDate_spec :
    (∀ (s p1 p2 p3 : JSStr) (y m d : Int),
        s.splitOn '/' = [p1, p2, p3] →
        jsNumberInt p1 = some y → jsNumberInt p2 = some m →
        jsNumberInt p3 = some d → isValidCalendarDate y m d →
        parseNordeaDate s = .ok ⟨y, m.toNat, d.toNat⟩) ∧
    parseNordeaDate (jstr "2024/5/1") = .ok ⟨2024, 5, 1⟩ ∧
    (parseNordeaDate (jstr "2024-05-01")).isOk = false ∧
    (∀ s : JSStr, (parseNordeaDate s).isOk = true ↔
      (match s.splitOn '/' with
       | [p1, p2, p3] => (jsNumberInt p1).isSome = true ∧
           (jsNumberInt p2).isSome = true ∧ (jsNumberInt p3).isSome = true
       | _ => False)) := by
  refine ⟨?_, by decide, by decide, ?_⟩
  · intro s p1 p2 p3 y m d hsplit h1 h2 h3 hval
    obtain ⟨hm1, hm2, hd1, hd2⟩ := hval
    simp only [parseNordeaDate, hsplit, h1, h2, h3]
    rw [mkJSDate_valid y m d hm1 hm2 hd1 hd2]
  · intro s
    unfold parseNordeaDate
    rcases hs : s.splitOn '/' with _ | ⟨p1, _ | ⟨p2, _ | ⟨p3, _ | ⟨p4, tl⟩⟩⟩⟩ <;>
      simp only [Except.isOk, Except.toBool]
    · simp
    · simp
    · simp
    · rcases h1 : jsNumberInt p1 with _ | y <;>
        rcases h2 : jsNumberInt p2 with _ | m <;>
          rcases h3 : jsNumberInt p3 with _ | d <;>
            simp [h1, h2, h3]
    · simp

/-- Witness: the amended C3 theorem applied at the concrete valid input
`"2024/5/1"`. -/
theorem parseNordeaDate_spec_witness :
    parseNordeaDate (jstr "2024/5/1") = .ok ⟨2024, 5, 1⟩ :=
  parseNordeaDate_spec.1 (jstr "2024/5/1") (jstr "2024") (jstr "5") (jstr "1")
    2024 5 1 (by decide) (by decide) (by decide) (by decide) (by decide)

/-! ## Claim C4: `parseEuropeanDecimal` -/

/-- Counterexample to C4: `"800,00x"` contains a stray character, which
the claim asserts is covered by the FormatError condition, yet
`parseFloat` parses the longest numeric prefix of `"800.00x"` and the
function returns 800 without error. -/
theorem parseEuropeanDecimal_stray_no_error :
    parseEuropeanDecimal (jstr "800,00x") = .ok (800 : ℚ) := by
  decide

/-- C4, amended: strip every '.', replace the FIRST ',' with '.', parse
the longest numeric prefix; the spec's example values hold; a
`FormatError` is raised exactly when the normalised string has no numeric
prefix at all (NaN), which covers empty strings but NOT strings whose
stray characters follow a valid numeric prefix. -/
theorem parseEuropeanDecimal_spec :
    parseEuropeanDecimal (jstr "1.234,56") = .ok (1234.56 : ℚ) ∧
    parseEuropeanDecimal (jstr "-45,99") = .ok (-45.99 : ℚ) ∧
    parseEuropeanDecimal (jstr "800,00") = .ok (800 : ℚ) ∧
    (parseEuropeanDecimal (jstr "")).isOk = false ∧
    parseEuropeanDecimal (jstr "800,00x") = .ok (800 : ℚ) ∧
    (∀ s : JSStr, (parseEuropeanDecimal s).isOk = false ↔
      parseFloatQ (replaceFirstComma (s.filter (fun c => ¬ (c = '.')))) = none) := by
  refine ⟨by decide, by decide, by decide, by decide, by decide, ?_⟩
  intro s
  rcases h : parseFloatQ (replaceFirstComma (s.filter (fun c => ¬ (c = '.')))) with _ | q <;>
    simp only [decide_not] at h <;>
    simp [parseEuropeanDecimal, Except.isOk, Except.toBool, h]

/-- Witness: the amended C4 theorem's error characterisation applied at
the concrete empty input. -/
theorem parseEuropeanDecimal_spec_witness :
    (parseEuropeanDecimal (jstr "")).isOk = false :=
  (parseEuropeanDecimal_spec.2.2.2.2.2 (jstr "")).mpr (by decide)

/-! ## Claim C1: categorization precedence -/

/-- The claim's description of categorization, written as a single pass:
an expense transaction lacking a category receives the category of the
FIRST mapping in original input order that is exact-typed and matches the
trimmed title (case-insensitively); only if no exact-typed mapping
matches, the category of the FIRST contains-typed matching mapping; all
other transactions pass through unchanged. -/
def specCategorizeOne (mappings : List CategoryMapping) (t : Transaction) :
    Transaction :=
  if 0 ≤ t.amount then t
  else if hasCategory t then t
  else
    let title := jsTrim t.title
    match mappings.find?
        (fun m => decide (m.matchType = MatchType.exact) && titleMatchesMapping title m) with
    | some m => { t with category := some m.category }
    | none =>
        match mappings.find?
            (fun m => decide (m.matchType = MatchType.contains) && titleMatchesMapping title m) with
        | some m => { t with category := some m.category }
        | none => t

/-- C1: `applyCategories` assigns to each uncategorized expense the first
matching exact rule in original mapping order, else the first matching
contains rule; exact always beats contains regardless of declaration
order; income and already-categorized transactions are unchanged. -/
theorem applyCategories_spec (ts : List Transaction) (ms : List CategoryMapping) :
    applyCategories ts ms = ts.map (specCategorizeOne ms) := by
  unfold applyCategories
  refine List.map_congr_left ?_
  intro t _
  unfold applyCategoriesOne specCategorizeOne
  simp only [List.find?_filter, Bool.decide_and, Bool.decide_eq_true]

/-! ## Claim C10: zero-amount transactions are neither income nor expense -/

/-- Sign counting helper: at most every transaction is counted as income
or expense, and a zero-amount transaction is counted as neither. -/
theorem sign_counts (ts : List Transaction) :
    (ts.filter (fun t => 0 < t.amount)).length +
      (ts.filter (fun t => t.amount < 0)).length ≤ ts.length ∧
    ((∃ t ∈ ts, t.amount = 0) →
      (ts.filter (fun t => 0 < t.amount)).length +
        (ts.filter (fun t => t.amount < 0)).length < ts.length) := by
  induction ts with
  | nil => simp
  | cons t ts ih =>
      obtain ⟨ih1, ih2⟩ := ih
      rcases lt_trichotomy t.amount 0 with h | h | h
      · have h1 : ¬ (0 < t.amount) := not_lt.mpr (le_of_lt h)
        have hfp : List.filter (fun x => decide (0 < x.amount)) (t :: ts) =
            List.filter (fun x => decide (0 < x.amount)) ts := by
          simp [List.filter_cons, h1]
        have hfn : List.filter (fun x => decide (x.amount < 0)) (t :: ts) =
            t :: List.filter (fun x => decide (x.amount < 0)) ts := by
          simp [List.filter_cons, h]
        constructor
        · rw [hfp, hfn]; simp only [List.length_cons]; omega
        · intro hex
          obtain ⟨u, hu, hz⟩ := hex
          rw [hfp, hfn]; simp only [List.length_cons]
          rcases List.mem_cons.mp hu with rfl | hu'
          · exact absurd hz (ne_of_lt h)
          · have := ih2 ⟨u, hu', hz⟩
            omega
      · have h1 : ¬ (0 < t.amount) := by rw [h]; exact lt_irrefl 0
        have h2 : ¬ (t.amount < 0) := by rw [h]; exact lt_irrefl 0
        have hfp : List.filter (fun x => decide (0 < x.amount)) (t :: ts) =
            List.filter (fun x => decide (0 < x.amount)) ts := by
          simp [List.filter_cons, h1]
        have hfn : List.filter (fun x => decide (x.amount < 0)) (t :: ts) =
            List.filter (fun x => decide (x.amount < 0)) ts := by
          simp [List.filter_cons, h2]
        constructor
        · rw [hfp, hfn]; simp only [List.length_cons]; omega
        · intro _
          rw [hfp, hfn]; simp only [List.length_cons]; omega
      · have h1 : ¬ (t.amount < 0) := not_lt.mpr (le_of_lt h)
        have hfp : List.filter (fun x => decide (0 < x.amount)) (t :: ts) =
            t :: List.filter (fun x => decide (0 < x.amount)) ts := by
          simp [List.filter_cons, h]
        have hfn : List.filter (fun x => decide (x.amount < 0)) (t :: ts) =
            List.filter (fun x => decide (x.amount < 0)) ts := by
          simp [List.filter_cons, h1]
        constructor
        · rw [hfp, hfn]; simp only [List.length_cons]; omega
        · intro hex
          obtain ⟨u, hu, hz⟩ := hex
          rw [hfp, hfn]; simp only [List.length_cons]
          rcases List.mem_cons.mp hu with rfl | hu'
          · exact absurd hz (ne_of_gt h)
          · have := ih2 ⟨u, hu', hz⟩
            omega

/-- C10: a zero-amount transaction is classified as neither income nor
expense anywhere in the pipeline: `applyCategories` and
`tagContributions` return it unchanged at its position, it contributes to
no contributor in `findTopContributors` (dropping zero-amount
transactions changes nothing), and `calculateDataQuality` counts it in
neither `incomeTransactions` nor `expenseTransactions`, so the two counts
can sum to strictly less than `totalTransactions`. -/
theorem zero_amount_neutral :
    (∀ (ts : List Transaction) (ms : List CategoryMapping) (i : Nat)
        (t : Transaction), ts[i]? = some t → t.amount = 0 →
        (applyCategories ts ms)[i]? = some t) ∧
    (∀ (ts : List Transaction) (sel : List JSStr) (i : Nat)
        (t : Transaction), ts[i]? = some t → t.amount = 0 →
        (tagContributions ts sel)[i]? = some t) ∧
    (∀ (ts : List Transaction) (count : Nat),
        findTopContributors ts count =
          findTopContributors (ts.filter (fun t => ¬ (t.amount = 0))) count) ∧
    (∀ (now : NDate) (ts : List Transaction) (dup : Nat),
        (calculateDataQuality now ts dup).incomeTransactions =
            (ts.filter (fun t => 0 < t.amount)).length ∧
          (calculateDataQuality now ts dup).expenseTransactions =
            (ts.filter (fun t => t.amount < 0)).length ∧
          (calculateDataQuality now ts dup).totalTransactions = ts.length ∧
          ((∃ t ∈ ts, t.amount = 0) →
            (calculateDataQuality now ts dup).incomeTransactions +
                (calculateDataQuality now ts dup).expenseTransactions <
              (calculateDataQuality now ts dup).totalTransactions)) := by
  refine ⟨?_, ?_, ?_, ?_⟩
  · intro ts ms i t hi hz
    unfold applyCategories
    rw [List.getElem?_map, hi]
    simp [applyCategoriesOne, hz]
  · intro ts sel i t hi hz
    unfold tagContributions
    rw [List.getElem?_map, hi]
    simp [hz]
  · intro ts count
    have hf : List.filter (fun a => decide (0 < a.amount) && decide ¬ a.amount = 0) ts =
        List.filter (fun t => decide (0 < t.amount)) ts := by
      refine List.filter_congr ?_
      intro t _
      by_cases h : 0 < t.amount
      · simp [h, ne_of_gt h]
      · simp [h]
    unfold findTopContributors
    rw [List.filter_filter, hf]
  · intro now ts dup
    match ts with
    | [] => simp [calculateDataQuality, getDateRange]
    | t :: rest =>
        obtain ⟨r, hr⟩ : ∃ r, getDateRange (t :: rest) = some r := ⟨_, rfl⟩
        refine ⟨?_, ?_, ?_, ?_⟩
        · simp [calculateDataQuality, hr]
        · simp [calculateDataQuality, hr]
        · simp [calculateDataQuality, hr]
        · intro hex
          have h2 := (sign_counts (t :: rest)).2 hex
          simpa [calculateDataQuality, hr] using h2

/-- A concrete zero-amount transaction for the C10 witness. -/
def sampleZeroTx : Transaction :=
  ⟨jstr "t-0", ⟨2024, 5, 10⟩, 0, jstr "TEST", jstr "", jstr "", jstr "",
    jstr "t.csv", none, none, none⟩

/-- Witness: the C10 theorem applied to a concrete zero-amount
transaction. -/
theorem zero_amount_neutral_witness :
    (applyCategories [sampleZeroTx] [])[0]? = some sampleZeroTx ∧
    (calculateDataQuality ⟨2024, 1, 1⟩ [sampleZeroTx] 0).incomeTransactions +
        (calculateDataQuality ⟨2024, 1, 1⟩ [sampleZeroTx] 0).expenseTransactions <
      (calculateDataQuality ⟨2024, 1, 1⟩ [sampleZeroTx] 0).totalTransactions := by
  constructor
  · exact zero_amount_neutral.1 [sampleZeroTx] [] 0 sampleZeroTx rfl (by decide)
  · exact (zero_amount_neutral.2.2.2 ⟨2024, 1, 1⟩ [sampleZeroTx] 0).2.2.2
      ⟨sampleZeroTx, by simp, by decide⟩

/-! ## Decimal stringification: correctness and injectivity -/

/-- `digitChar10` maps values below 10 to their digit character. -/
theorem digitVal_digitChar {n : Nat} (h : n < 10) :
    digitVal (digitChar10 n) = n := by
  interval_cases n <;> decide

/-- Digit characters are digits. -/
theorem isDigitC_digitChar {n : Nat} (h : n < 10) :
    isDigitC (digitChar10 n) = true := by
  interval_cases n <;> decide

/-- Reading one more digit multiplies the value by ten. -/
theorem digitsToNat_append_singleton (l : JSStr) (c : Char) :
    digitsToNat (l ++ [c]) = 10 * digitsToNat l + digitVal c := by
  simp [digitsToNat, List.foldl_append]

/-- With sufficient fuel, `natStrAux` produces a non-empty digit string
whose value is the input. -/
theorem natStrAux_spec : ∀ fuel n : Nat, n < fuel →
    natStrAux fuel n ≠ [] ∧ (∀ c ∈ natStrAux fuel n, isDigitC c = true) ∧
      digitsToNat (natStrAux fuel n) = n := by
  intro fuel
  induction fuel with
  | zero => intro n h; omega
  | succ fuel ih =>
      intro n h
      by_cases h10 : n < 10
      · simp only [natStrAux, if_pos h10]
        refine ⟨by simp, ?_, ?_⟩
        · intro c hc
          simp only [List.mem_singleton] at hc
          subst hc
          exact isDigitC_digitChar h10
        · show 10 * 0 + digitVal (digitChar10 n) = n
          rw [digitVal_digitChar h10]
          omega
      · simp only [natStrAux, if_neg h10]
        have hdiv : n / 10 < fuel := by omega
        obtain ⟨hne, hdig, hval⟩ := ih (n / 10) hdiv
        refine ⟨by simp, ?_, ?_⟩
        · intro c hc
          rcases List.mem_append.mp hc with hc | hc
          · exact hdig c hc
          · simp only [List.mem_singleton] at hc
            subst hc
            exact isDigitC_digitChar (by omega)
        · rw [digitsToNat_append_singleton, hval, digitVal_digitChar (by omega)]
          omega

/-- `natStr` round-trips through `digitsToNat`. -/
theorem digitsToNat_natStr (n : Nat) : digitsToNat (natStr n) = n :=
  (natStrAux_spec (n + 1) n (by omega)).2.2

/-- `natStr` is never empty. -/
theorem natStr_ne_nil (n : Nat) : natStr n ≠ [] :=
  (natStrAux_spec (n + 1) n (by omega)).1

/-- `natStr` consists of digit characters only. -/
theorem natStr_digits (n : Nat) : ∀ c ∈ natStr n, isDigitC c = true :=
  (natStrAux_spec (n + 1) n (by omega)).2.1

/-- `String(n)` is injective on naturals. -/
theorem natStr_injective {a b : Nat} (h : natStr a = natStr b) : a = b := by
  have := digitsToNat_natStr a
  rw [h, digitsToNat_natStr] at this
  omega

/-- `String(i)` is injective on integers. -/
theorem intStr_injective {a b : Int} (h : intStr a = intStr b) : a = b := by
  unfold intStr at h
  by_cases ha : a < 0 <;> by_cases hb : b < 0 <;> simp [ha, hb] at h
  · have := natStr_injective h
    omega
  · exfalso
    have hd := natStr_digits b.natAbs '-' (by rw [← h]; exact List.mem_cons_self _ _)
    simp [isDigitC] at hd
  · exfalso
    have hd := natStr_digits a.natAbs '-' (by rw [h]; exact List.mem_cons_self _ _)
    simp [isDigitC] at hd
  · have := natStr_injective h
    omega

/-- Leading zeros do not change the numeric value. -/
theorem digitsToNat_cons_zero (l : JSStr) :
    digitsToNat ('0' :: l) = digitsToNat l := by
  have h0 : digitVal '0' = 0 := by decide
  simp [digitsToNat, h0]

/-- The zero-padded month/week number is injective. -/
theorem pad2_injective {a b : Nat} (h : pad2 a = pad2 b) : a = b := by
  unfold pad2 at h
  by_cases ha : a < 10 <;> by_cases hb : b < 10 <;> simp [ha, hb] at h
  · exact natStr_injective h
  · exfalso
    have hv : digitsToNat ('0' :: natStr a) = digitsToNat (natStr b) := by rw [h]
    rw [digitsToNat_cons_zero, digitsToNat_natStr, digitsToNat_natStr] at hv
    omega
  · exfalso
    have hv : digitsToNat (natStr a) = digitsToNat ('0' :: natStr b) := by rw [h]
    rw [digitsToNat_cons_zero, digitsToNat_natStr, digitsToNat_natStr] at hv
    omega
  · exact natStr_injective h

/-- `pad2` pads numbers below 100 to exactly two characters. -/
theorem pad2_length {m : Nat} (h : m ≤ 99) : (pad2 m).length = 2 := by
  interval_cases m <;> decide

/-- `formatMonth` is injective on dates with a valid month field (as
produced by `dateOfMonthIdx`). -/
theorem formatMonth_injective {d1 d2 : NDate}
    (h1 : d1.month ≤ 12) (h2 : d2.month ≤ 12)
    (h : formatMonth d1 = formatMonth d2) : d1.year = d2.year ∧ d1.month = d2.month := by
  unfold formatMonth at h
  have hlen : ('-' :: pad2 d1.month).length = ('-' :: pad2 d2.month).length := by
    simp [pad2_length (by omega : d1.month ≤ 99),
      pad2_length (by omega : d2.month ≤ 99)]
  obtain ⟨hy, hm⟩ := List.append_inj' h hlen
  refine ⟨intStr_injective hy, ?_⟩
  exact pad2_injective (List.cons.injEq .. |>.mp hm).2

/-! ## Cash flow: fold characterisation (claims C8, C9) -/

/-- Association update then read at the same key. -/
theorem getAssoc_setAssoc_self {V : Type} (l : List (JSStr × V)) (k : JSStr)
    (v : V) : getAssoc (setAssoc l k v) k = some v := by
  induction l with
  | nil => simp [setAssoc, getAssoc]
  | cons p rest ih =>
      by_cases h : p.1 = k
      · simp [setAssoc, getAssoc, h]
      · simp [setAssoc, getAssoc, h, ih]

/-- Association update then read at a different key. -/
theorem getAssoc_setAssoc_ne {V : Type} (l : List (JSStr × V)) (k k' : JSStr)
    (v : V) (h : ¬ (k' = k)) :
    getAssoc (setAssoc l k v) k' = getAssoc l k' := by
  have h' : ¬ (k = k') := fun c => h c.symm
  induction l with
  | nil => simp [setAssoc, getAssoc, h']
  | cons p rest ih =>
      by_cases hp : p.1 = k
      · simp [setAssoc, getAssoc, hp, h', h]
      · simp [setAssoc, getAssoc, hp, ih]

/-- The claim's "income of a month": sum of the positive amounts booked in
that month. -/
def sumPos (ts : List Transaction) (m : JSStr) : ℚ :=
  (ts.map (fun t => if formatMonth t.date = m ∧ 0 < t.amount then t.amount else 0)).sum

/-- The claim's "outgoings of a month": sum of the absolute values of the
negative amounts booked in that month. -/
def sumNegAbs (ts : List Transaction) (m : JSStr) : ℚ :=
  (ts.map (fun t => if formatMonth t.date = m ∧ t.amount < 0 then |t.amount| else 0)).sum

/-- The accumulation loop of `calculateMonthlyCashFlow` computes exactly
the per-month income and outgoings sums (zero-amount transactions add
`|0| = 0` to outgoings, so the "negative amounts" reading is exact). -/
theorem cashFlowFold_spec (ts : List Transaction) :
    ∀ (acc : List (JSStr × (ℚ × ℚ))) (m : JSStr),
      (getAssoc (ts.foldl cashFlowFold acc) m).getD (0, 0) =
        (((getAssoc acc m).getD (0, 0)).1 + sumPos ts m,
         ((getAssoc acc m).getD (0, 0)).2 + sumNegAbs ts m) := by
  induction ts with
  | nil => intro acc m; simp [sumPos, sumNegAbs]
  | cons t ts ih =>
      intro acc m
      rw [List.foldl_cons, ih]
      rcases lt_trichotomy t.amount 0 with hneg | hzero | hpos
      · have hnp : ¬ (0 < t.amount) := not_lt.mpr (le_of_lt hneg)
        have hsp : sumPos (t :: ts) m = sumPos ts m := by simp [sumPos, hnp]
        by_cases hm : formatMonth t.date = m
        · have hacc : (getAssoc (cashFlowFold acc t) m).getD (0, 0) =
              (((getAssoc acc m).getD (0, 0)).1,
               ((getAssoc acc m).getD (0, 0)).2 + |t.amount|) := by
            simp [cashFlowFold, hm, hnp, getAssoc_setAssoc_self]
          have hsn : sumNegAbs (t :: ts) m = |t.amount| + sumNegAbs ts m := by
            simp [sumNegAbs, hm, hneg]
          rw [hacc, hsp, hsn]
          simp only [Prod.mk.injEq]
          constructor <;> ring_nf
        · have hne : ¬ (m = formatMonth t.date) := fun c => hm c.symm
          have hacc : getAssoc (cashFlowFold acc t) m = getAssoc acc m := by
            simp [cashFlowFold, hnp, getAssoc_setAssoc_ne _ _ _ _ hne]
          have hsn : sumNegAbs (t :: ts) m = sumNegAbs ts m := by
            simp [sumNegAbs, hm]
          rw [hacc, hsp, hsn]
      · have hnp : ¬ (0 < t.amount) := by rw [hzero]; exact lt_irrefl 0
        have hnn : ¬ (t.amount < 0) := by rw [hzero]; exact lt_irrefl 0
        have hsp : sumPos (t :: ts) m = sumPos ts m := by simp [sumPos, hnp]
        have hsn : sumNegAbs (t :: ts) m = sumNegAbs ts m := by
          simp [sumNegAbs, hnn]
        by_cases hm : formatMonth t.date = m
        · have hacc : (getAssoc (cashFlowFold acc t) m).getD (0, 0) =
              (((getAssoc acc m).getD (0, 0)).1,
               ((getAssoc acc m).getD (0, 0)).2 + |t.amount|) := by
            simp [cashFlowFold, hm, hnp, getAssoc_setAssoc_self]
          rw [hacc, hsp, hsn, hzero]
          simp
        · have hne : ¬ (m = formatMonth t.date) := fun c => hm c.symm
          have hacc : getAssoc (cashFlowFold acc t) m = getAssoc acc m := by
            simp [cashFlowFold, hnp, getAssoc_setAssoc_ne _ _ _ _ hne]
          rw [hacc, hsp, hsn]
      · have hnn : ¬ (t.amount < 0) := not_lt.mpr (le_of_lt hpos)
        have hsn : sumNegAbs (t :: ts) m = sumNegAbs ts m := by
          simp [sumNegAbs, hnn]
        by_cases hm : formatMonth t.date = m
        · have hacc : (getAssoc (cashFlowFold acc t) m).getD (0, 0) =
              (((getAssoc acc m).getD (0, 0)).1 + t.amount,
               ((getAssoc acc m).getD (0, 0)).2) := by
            simp [cashFlowFold, hm, hpos, getAssoc_setAssoc_self]
          have hsp : sumPos (t :: ts) m = t.amount + sumPos ts m := by
            simp [sumPos, hm, hpos]
          rw [hacc, hsp, hsn]
          simp only [Prod.mk.injEq]
          constructor <;> ring_nf
        · have hne : ¬ (m = formatMonth t.date) := fun c => hm c.symm
          have hacc : getAssoc (cashFlowFold acc t) m = getAssoc acc m := by
            simp [cashFlowFold, hpos, getAssoc_setAssoc_ne _ _ _ _ hne]
          have hsp : sumPos (t :: ts) m = sumPos ts m := by simp [sumPos, hm]
          rw [hacc, hsp, hsn]

/-- The zero-initialisation loop yields zero for every key. -/
theorem initZeros : ∀ (months : List JSStr) (acc : List (JSStr × (ℚ × ℚ))),
    (∀ m', (getAssoc acc m').getD (0, 0) = (0, 0)) →
    ∀ m, (getAssoc (months.foldl (fun a mo => setAssoc a mo ((0 : ℚ), (0 : ℚ))) acc) m).getD (0, 0) = (0, 0) := by
  intro months
  induction months with
  | nil => intro acc h m; exact h m
  | cons mo months ih =>
      intro acc h m
      refine ih _ ?_ m
      intro m'
      by_cases hm : m' = mo
      · subst hm; rw [getAssoc_setAssoc_self]; rfl
      · rw [getAssoc_setAssoc_ne _ _ _ _ hm]; exact h m'

/-- The claim's description of `calculateMonthlyCashFlow`: one record per
listed month with income the sum of positive amounts that month,
outgoings the sum of absolute negative amounts, `net = income −
outgoings`, and a running cumulative balance over the listed months in
order. -/
def specCashFlow (ts : List Transaction) : ℚ → List JSStr → List MonthlyCashFlow
  | _, [] => []
  | cum, m :: rest =>
      ⟨m, sumPos ts m, sumNegAbs ts m, sumPos ts m - sumNegAbs ts m,
        cum + (sumPos ts m - sumNegAbs ts m)⟩ ::
        specCashFlow ts (cum + (sumPos ts m - sumNegAbs ts m)) rest

/-- The output loop produces the spec records once the accumulated map is
known. -/
theorem cashFlowOut_eq (ts : List Transaction) (md : List (JSStr × (ℚ × ℚ)))
    (h : ∀ m, (getAssoc md m).getD (0, 0) = (sumPos ts m, sumNegAbs ts m)) :
    ∀ (months : List JSStr) (cum : ℚ),
      cashFlowOut md cum months = specCashFlow ts cum months := by
  intro months
  induction months with
  | nil => intro cum; rfl
  | cons m rest ih =>
      intro cum
      simp only [cashFlowOut, specCashFlow, h m]
      rw [ih]

/-- `calculateMonthlyCashFlow` equals its specification. -/
theorem calculateMonthlyCashFlow_eq (ts : List Transaction)
    (months : List JSStr) :
    calculateMonthlyCashFlow ts months = specCashFlow ts 0 months := by
  unfold calculateMonthlyCashFlow
  refine cashFlowOut_eq ts _ ?_ months 0
  intro m
  rw [cashFlowFold_spec ts _ m,
    initZeros months [] (fun m' => by simp [getAssoc]) m]
  simp

/-! ## Claim C9: monthly cash flow values -/

/-- A minimal transaction for concrete cash-flow examples. -/
def cfTx (ident : String) (date : NDate) (amount : ℚ) : Transaction :=
  ⟨jstr ident, date, amount, jstr "T", jstr "", jstr "", jstr "",
    jstr "f.csv", none, none, none⟩

/-- C9: for every transaction list and month list,
`calculateMonthlyCashFlow` computes per month the income (sum of positive
amounts), outgoings (sum of absolute negative amounts), `net = income −
outgoings` and the running cumulative balance across the listed months in
order; on the spec's example `{+1000 May, −400 May, +500 June, −200
June}` it yields May net 600 (cumulative 600) and June net 300
(cumulative 900). -/
theorem calculateMonthlyCashFlow_spec :
    (∀ (ts : List Transaction) (months : List JSStr),
        calculateMonthlyCashFlow ts months = specCashFlow ts 0 months) ∧
    calculateMonthlyCashFlow
        [cfTx "a" ⟨2024, 5, 10⟩ 1000, cfTx "b" ⟨2024, 5, 20⟩ (-400),
         cfTx "c" ⟨2024, 6, 10⟩ 500, cfTx "d" ⟨2024, 6, 20⟩ (-200)]
        [jstr "2024-05", jstr "2024-06"] =
      [⟨jstr "2024-05", 1000, 400, 600, 600⟩,
       ⟨jstr "2024-06", 500, 200, 300, 900⟩] := by
  refine ⟨calculateMonthlyCashFlow_eq, ?_⟩
  decide

/-! ## Claim C8: month range coverage and zero-fill -/

/-- `dateOfMonthIdx` produces a month in 1..12. -/
theorem dateOfMonthIdx_month_bounds (i : Int) :
    1 ≤ (dateOfMonthIdx i).month ∧ (dateOfMonthIdx i).month ≤ 12 := by
  show 1 ≤ (i % 12).toNat + 1 ∧ (i % 12).toNat + 1 ≤ 12
  omega

/-- Distinct month counters yield distinct `YYYY-MM` keys. -/
theorem monthKeyOfIdx_injective {i j : Int}
    (h : formatMonth (dateOfMonthIdx i) = formatMonth (dateOfMonthIdx j)) :
    i = j := by
  obtain ⟨hy, hm⟩ := formatMonth_injective (dateOfMonthIdx_month_bounds i).2
    (dateOfMonthIdx_month_bounds j).2 h
  simp only [dateOfMonthIdx] at hy hm
  have hy' : i / 12 = j / 12 := hy
  have hm' : (i % 12).toNat + 1 = (j % 12).toNat + 1 := hm
  omega

/-- The month-stepping loop is the consecutive range of month keys. -/
theorem monthKeysFrom_eq (n : Nat) : ∀ a : Int,
    monthKeysFrom a n =
      (List.range n).map
        (fun k : Nat => formatMonth (dateOfMonthIdx (a + (k : Int)))) := by
  induction n with
  | zero => intro a; rfl
  | succ n ih =>
      intro a
      rw [List.range_succ_eq_map, List.map_cons, List.map_map]
      show formatMonth (dateOfMonthIdx a) :: monthKeysFrom (a + 1) n = _ :: _
      congr 1
      · congr 2
        push_cast
        ring
      · rw [ih (a + 1)]
        refine List.map_congr_left ?_
        intro k _
        simp only [Function.comp_apply]
        congr 2
        push_cast
        ring

/-- Per-month specification values vanish on months with no booked
transaction. -/
theorem sums_vanish (ts : List Transaction) (m : JSStr)
    (h : ∀ t ∈ ts, ¬ (formatMonth t.date = m)) :
    sumPos ts m = 0 ∧ sumNegAbs ts m = 0 := by
  induction ts with
  | nil => simp [sumPos, sumNegAbs]
  | cons t ts ih =>
      have hm := h t (List.mem_cons_self t ts)
      obtain ⟨ih1, ih2⟩ := ih (fun u hu => h u (List.mem_cons_of_mem t hu))
      constructor
      · simp [sumPos, hm] at ih1 ⊢
        simpa [sumPos] using ih1
      · simp [sumNegAbs, hm] at ih2 ⊢
        simpa [sumNegAbs] using ih2

/-- The spec record list is indexed by the requested month list. -/
theorem specCashFlow_month_map (ts : List Transaction) :
    ∀ (months : List JSStr) (cum : ℚ),
      (specCashFlow ts cum months).map (fun c => c.month) = months := by
  intro months
  induction months with
  | nil => intro cum; rfl
  | cons m rest ih => intro cum; simp [specCashFlow, ih]

/-- Positional access into the spec record list. -/
theorem specCashFlow_get (ts : List Transaction) :
    ∀ (months : List JSStr) (cum : ℚ) (i : Nat) (m : JSStr),
      months[i]? = some m →
      ∃ c, (specCashFlow ts cum months)[i]? = some c ∧ c.month = m ∧
        c.income = sumPos ts m ∧ c.outgoings = sumNegAbs ts m ∧
        c.net = sumPos ts m - sumNegAbs ts m := by
  intro months
  induction months with
  | nil => intro cum i m h; simp at h
  | cons m0 rest ih =>
      intro cum i m h
      match i with
      | 0 =>
          simp only [List.getElem?_cons_zero, Option.some.injEq] at h
          subst h
          refine ⟨⟨m0, sumPos ts m0, sumNegAbs ts m0,
            sumPos ts m0 - sumNegAbs ts m0,
            cum + (sumPos ts m0 - sumNegAbs ts m0)⟩, ?_, rfl, rfl, rfl, rfl⟩
          simp [specCashFlow]
      | i + 1 =>
          simp only [List.getElem?_cons_succ] at h
          obtain ⟨c, hc, h2⟩ := ih (cum + (sumPos ts m0 - sumNegAbs ts m0))
            (i := i) m h
          exact ⟨c, by simpa [specCashFlow] using hc, h2⟩

/-- C8: `getAllMonthsInRange` returns every `YYYY-MM` bucket key between
the two dates inclusive, each exactly once, in ascending (consecutive
month-counter) order, even for empty months; and
`calculateMonthlyCashFlow` emits exactly one record per listed month,
zero-filled when the month has no transactions. -/
theorem monthRange_zero_fill :
    (∀ s e : NDate, 1 ≤ s.month → s.month ≤ 12 → 1 ≤ e.month → e.month ≤ 12 →
      dateLE s e = true →
      getAllMonthsInRange s e =
          (List.range ((monthIdxOf e - monthIdxOf s).toNat + 1)).map
            (fun k : Nat =>
              formatMonth (dateOfMonthIdx (monthIdxOf s + (k : Int)))) ∧
        (getAllMonthsInRange s e).Nodup ∧
        (∀ i : Int, formatMonth (dateOfMonthIdx i) ∈ getAllMonthsInRange s e ↔
          monthIdxOf s ≤ i ∧ i ≤ monthIdxOf e)) ∧
    (∀ (ts : List Transaction) (months : List JSStr),
      (calculateMonthlyCashFlow ts months).map (fun c => c.month) = months) ∧
    (∀ (ts : List Transaction) (months : List JSStr) (i : Nat) (m : JSStr),
      months[i]? = some m → (∀ t ∈ ts, ¬ (formatMonth t.date = m)) →
      ∃ c, (calculateMonthlyCashFlow ts months)[i]? = some c ∧ c.month = m ∧
        c.income = 0 ∧ c.outgoings = 0 ∧ c.net = 0) := by
  refine ⟨?_, ?_, ?_⟩
  · intro s e hs1 hs2 he1 he2 hle
    simp only [dateLE, decide_eq_true_eq] at hle
    have hab : monthIdxOf s ≤ monthIdxOf e := by
      unfold monthIdxOf
      rcases hle with h | ⟨h, h2 | ⟨h2, _⟩⟩ <;> omega
    have hrange : getAllMonthsInRange s e =
        (List.range ((monthIdxOf e - monthIdxOf s).toNat + 1)).map
          (fun k : Nat =>
            formatMonth (dateOfMonthIdx (monthIdxOf s + (k : Int)))) := by
      unfold getAllMonthsInRange
      rw [if_pos hab, monthKeysFrom_eq]
    refine ⟨hrange, ?_, ?_⟩
    · rw [hrange]
      refine List.Nodup.map ?_ (List.nodup_range _)
      intro k1 k2 hk
      have := monthKeyOfIdx_injective hk
      omega
    · intro i
      rw [hrange]
      constructor
      · intro hmem
        obtain ⟨k, hk, hkey⟩ := List.mem_map.mp hmem
        have hkr := List.mem_range.mp hk
        have := monthKeyOfIdx_injective hkey
        omega
      · intro ⟨h1, h2⟩
        refine List.mem_map.mpr ⟨(i - monthIdxOf s).toNat, ?_, ?_⟩
        · exact List.mem_range.mpr (by omega)
        · have harg : monthIdxOf s + (((i - monthIdxOf s).toNat : Nat) : Int) = i := by
            omega
          rw [harg]
  · intro ts months
    rw [calculateMonthlyCashFlow_eq]
    exact specCashFlow_month_map ts months 0
  · intro ts months i m hm hnone
    rw [calculateMonthlyCashFlow_eq]
    obtain ⟨c, hc, hcm, hci, hco, hcn⟩ := specCashFlow_get ts months 0 i m hm
    obtain ⟨hz1, hz2⟩ := sums_vanish ts m hnone
    exact ⟨c, hc, hcm, by rw [hci, hz1], by rw [hco, hz2],
      by rw [hcn, hz1, hz2]; ring⟩

/-- Witness: the C8 theorem applied at the concrete range November 2024 to
February 2025 and at a concrete empty month. -/
theorem monthRange_zero_fill_witness :
    (getAllMonthsInRange ⟨2024, 11, 20⟩ ⟨2025, 2, 3⟩).Nodup ∧
    (∃ c, (calculateMonthlyCashFlow [cfTx "a" ⟨2024, 5, 10⟩ 500]
        [jstr "2024-05", jstr "2024-06"])[1]? = some c ∧
      c.month = jstr "2024-06" ∧ c.income = 0 ∧ c.outgoings = 0 ∧ c.net = 0) := by
  constructor
  · exact ((monthRange_zero_fill.1 ⟨2024, 11, 20⟩ ⟨2025, 2, 3⟩ (by decide)
      (by decide) (by decide) (by decide) (by decide)).2).1
  · exact monthRange_zero_fill.2.2 [cfTx "a" ⟨2024, 5, 10⟩ 500]
      [jstr "2024-05", jstr "2024-06"] 1 (jstr "2024-06") (by decide)
      (by intro t ht; simp at ht; subst ht; decide)

/-! ## Deduplication: grouping characterisation (claims C2, C5) -/

/-- `dateLE` is total. -/
theorem dateLE_total (a b : NDate) : dateLE a b = true ∨ dateLE b a = true := by
  simp only [dateLE, decide_eq_true_eq]
  omega

/-- `dateLE` is transitive. -/
theorem dateLE_trans {a b c : NDate} (h1 : dateLE a b = true)
    (h2 : dateLE b c = true) : dateLE a c = true := by
  simp only [dateLE, decide_eq_true_eq] at h1 h2 ⊢
  omega

instance : IsTotal DuplicateGroup groupDateLE :=
  ⟨fun a b => dateLE_total a.date b.date⟩

instance : IsTrans DuplicateGroup groupDateLE :=
  ⟨fun _ _ _ => dateLE_trans⟩

instance : IsTotal Transaction txDateLE :=
  ⟨fun a b => dateLE_total a.date b.date⟩

instance : IsTrans Transaction txDateLE :=
  ⟨fun _ _ _ => dateLE_trans⟩

/-- The transactions of `ts` carrying the identity key `k`, in order. -/
def keyFilter (ts : List Transaction) (k : JSStr) : List Transaction :=
  ts.filter (fun t => getTransactionKey t = k)

/-- The single fold step of `groupByKey`. -/
def groupStep (groups : List (JSStr × List Transaction)) (t : Transaction) :
    List (JSStr × List Transaction) :=
  setAssoc groups (getTransactionKey t)
    ((getAssoc groups (getTransactionKey t)).getD [] ++ [t])

/-- `groupByKey` is the fold of `groupStep`. -/
theorem groupByKey_eq_foldl (ts : List Transaction) :
    groupByKey ts = ts.foldl groupStep [] := rfl

/-- A key present after `setAssoc` was present before or is the new key. -/
theorem mem_keys_setAssoc {V : Type} (l : List (JSStr × V)) (k x : JSStr)
    (v : V) (h : x ∈ (setAssoc l k v).map Prod.fst) :
    x ∈ l.map Prod.fst ∨ x = k := by
  induction l with
  | nil => simpa [setAssoc] using h
  | cons p rest ih =>
      by_cases hp : p.1 = k
      · simp only [setAssoc, if_pos hp, List.map_cons] at h
        exact Or.inl h
      · simp only [setAssoc, if_neg hp, List.map_cons, List.mem_cons] at h
        rcases h with h | h
        · exact Or.inl (by rw [h]; exact List.mem_cons_self _ _)
        · rcases ih h with h' | h'
          · exact Or.inl (List.mem_cons_of_mem _ h')
          · exact Or.inr h'

/-- `setAssoc` preserves distinctness of keys. -/
theorem nodup_keys_setAssoc {V : Type} (l : List (JSStr × V)) (k : JSStr)
    (v : V) (h : (l.map Prod.fst).Nodup) :
    ((setAssoc l k v).map Prod.fst).Nodup := by
  induction l with
  | nil => simp [setAssoc]
  | cons p rest ih =>
      rw [List.map_cons, List.nodup_cons] at h
      by_cases hp : p.1 = k
      · simp only [setAssoc, if_pos hp, List.map_cons, List.nodup_cons]
        exact h
      · simp only [setAssoc, if_neg hp, List.map_cons, List.nodup_cons]
        refine ⟨?_, ih h.2⟩
        intro hc
        rcases mem_keys_setAssoc rest k p.1 v hc with h' | h'
        · exact h.1 h'
        · exact hp h'

/-- In a key-distinct association list, every entry is found by its key. -/
theorem getAssoc_of_mem {V : Type} (l : List (JSStr × V))
    (h : (l.map Prod.fst).Nodup) (p : JSStr × V) (hp : p ∈ l) :
    getAssoc l p.1 = some p.2 := by
  induction l with
  | nil => simp at hp
  | cons q rest ih =>
      rw [List.map_cons, List.nodup_cons] at h
      rcases List.mem_cons.mp hp with rfl | hp'
      · simp [getAssoc]
      · have hq : ¬ (q.1 = p.1) := by
          intro c
          exact h.1 (c ▸ List.mem_map.mpr ⟨p, hp', rfl⟩)
        simp only [getAssoc, if_neg hq]
        exact ih h.2 hp'

/-- The grouping fold preserves key distinctness. -/
theorem groupFold_nodup_keys (ts : List Transaction) :
    ∀ acc : List (JSStr × List Transaction),
      (acc.map Prod.fst).Nodup → ((ts.foldl groupStep acc).map Prod.fst).Nodup := by
  induction ts with
  | nil => intro acc h; exact h
  | cons t ts ih =>
      intro acc h
      exact ih _ (nodup_keys_setAssoc _ _ _ h)

/-- The bucket of key `k` after the grouping fold holds, in order, exactly
the transactions whose key is `k`. -/
theorem groupFold_getAssoc (ts : List Transaction) :
    ∀ (acc : List (JSStr × List Transaction)) (k : JSStr),
      (getAssoc (ts.foldl groupStep acc) k).getD [] =
        (getAssoc acc k).getD [] ++ keyFilter ts k := by
  induction ts with
  | nil => intro acc k; simp [keyFilter]
  | cons t ts ih =>
      intro acc k
      rw [List.foldl_cons, ih]
      by_cases hk : getTransactionKey t = k
      · have : getAssoc (groupStep acc t) k =
            some ((getAssoc acc k).getD [] ++ [t]) := by
          unfold groupStep
          rw [hk, getAssoc_setAssoc_self]
        rw [this]
        simp only [Option.getD_some, keyFilter, List.filter_cons, hk]
        simp [List.append_assoc]
      · have hne : ¬ (k = getTransactionKey t) := fun c => hk c.symm
        have : getAssoc (groupStep acc t) k = getAssoc acc k := by
          unfold groupStep
          exact getAssoc_setAssoc_ne _ _ _ _ hne
        rw [this]
        simp only [keyFilter, List.filter_cons, hk]
        simp [hk]

/-- Each entry of `groupByKey ts` is the in-order filter of `ts` at its
key. -/
theorem groupByKey_entry (ts : List Transaction) (p : JSStr × List Transaction)
    (hp : p ∈ groupByKey ts) : p.2 = keyFilter ts p.1 := by
  have hnd : ((groupByKey ts).map Prod.fst).Nodup := by
    rw [groupByKey_eq_foldl]
    exact groupFold_nodup_keys ts [] (by simp)
  have h1 : getAssoc (groupByKey ts) p.1 = some p.2 :=
    getAssoc_of_mem _ hnd p hp
  have h2 : (getAssoc (groupByKey ts) p.1).getD [] = keyFilter ts p.1 := by
    rw [groupByKey_eq_foldl, groupFold_getAssoc ts [] p.1]
    simp [getAssoc]
  rw [h1] at h2
  simpa using h2

/-- Every group returned by `findDuplicates` is the in-order key filter of
the input for some key, has at least two members and spans at least two
distinct source files. -/
theorem findDuplicates_mem (ts : List Transaction) (g : DuplicateGroup)
    (hg : g ∈ findDuplicates ts) :
    ∃ k, g.transactions = keyFilter ts k ∧ 2 ≤ g.transactions.length ∧
      2 ≤ distinctCount (g.transactions.map (fun t => t.sourceFile)) := by
  unfold findDuplicates at hg
  rw [List.mem_insertionSort] at hg
  obtain ⟨kg, hkg, hf⟩ := List.mem_filterMap.mp hg
  rcases hsplit : kg.2 with _ | ⟨t0, rest⟩
  · rw [hsplit] at hf; simp at hf
  · rw [hsplit] at hf
    dsimp only at hf
    by_cases hcond : 2 ≤ (t0 :: rest).length ∧
        2 ≤ distinctCount ((t0 :: rest).map (fun t => t.sourceFile))
    · rw [if_pos hcond] at hf
      have hgt : g.transactions = t0 :: rest := by
        cases Option.some.inj hf
        rfl
      refine ⟨kg.1, ?_, ?_, ?_⟩
      · rw [hgt, ← hsplit]
        exact groupByKey_entry ts kg hkg
      · rw [hgt]; exact hcond.1
      · rw [hgt]; exact hcond.2
    · rw [if_neg hcond] at hf
      simp at hf

/-! ## Claim C2: duplicate flagging -/

/-- Concrete transactions: the same ledger entry twice in file `a.csv`
and once in file `b.csv`. -/
def dupTx (ident file : String) : Transaction :=
  ⟨jstr ident, ⟨2024, 5, 10⟩, -10, jstr "SHOP", jstr "", jstr "R1", jstr "",
    jstr file, none, none, none⟩

/-- The three-element input of the C2 counterexample and witnesses. -/
def dupList : List Transaction :=
  [dupTx "a.csv-0" "a.csv", dupTx "a.csv-1" "a.csv", dupTx "b.csv-0" "b.csv"]

/-- The single group `findDuplicates` returns on `dupList`. -/
def dupGroup : DuplicateGroup :=
  ⟨dupList, ⟨2024, 5, 10⟩, -10, jstr "SHOP", jstr "R1"⟩

/-- Unescaped-`'|'` key collision: distinct (title, reference) pairs with
the same joined key. -/
def pipeTx1 : Transaction :=
  ⟨jstr "a.csv-0", ⟨2024, 5, 10⟩, -10, jstr "a|b", jstr "", jstr "c",
    jstr "", jstr "a.csv", none, none, none⟩

/-- See `pipeTx1`. -/
def pipeTx2 : Transaction :=
  ⟨jstr "b.csv-0", ⟨2024, 5, 10⟩, -10, jstr "a", jstr "", jstr "b|c",
    jstr "", jstr "b.csv", none, none, none⟩

/-- Counterexample to C2.  First: in a key group spanning two files but
containing a same-file repeat, the two same-file transactions appear in
one returned group and are BOTH marked `isDuplicate = true`, although
they do not originate from different source files.  Second: because the
identity key joins fields with an unescaped `'|'`, two transactions that
disagree on title and reference number are still grouped and flagged
together. -/
theorem same_file_pair_flagged :
    findDuplicates dupList = [dupGroup] ∧
    (dupTx "a.csv-0" "a.csv").sourceFile = (dupTx "a.csv-1" "a.csv").sourceFile ∧
    markDuplicates dupList (findDuplicates dupList) =
      [{ dupTx "a.csv-0" "a.csv" with isDuplicate := some true },
       { dupTx "a.csv-1" "a.csv" with isDuplicate := some true },
       { dupTx "b.csv-0" "b.csv" with isDuplicate := some true }] ∧
    ¬ (pipeTx1.title = pipeTx2.title) ∧
    getTransactionKey pipeTx1 = getTransactionKey pipeTx2 ∧
    findDuplicates [pipeTx1, pipeTx2] =
      [⟨[pipeTx1, pipeTx2], pipeTx1.date, pipeTx1.amount, pipeTx1.title,
        pipeTx1.referenceNumber⟩] := by
  refine ⟨by decide, by decide, by decide, by decide, by decide, by decide⟩

/-- C2, amended: transactions are flagged as duplicates exactly when
their id occurs in a group returned by `findDuplicates`; every returned
group consists of the in-order transactions sharing one identity-key
string (`day|amount|title|reference`, joined without escaping), has at
least 2 members spanning at least 2 distinct source files — but inside
such a group same-file repeats are flagged too; groups are sorted
ascending by date. -/
theorem findDuplicates_markDuplicates_spec (ts : List Transaction) :
    (∀ g ∈ findDuplicates ts,
      2 ≤ g.transactions.length ∧
      2 ≤ distinctCount (g.transactions.map (fun t => t.sourceFile)) ∧
      (∀ t ∈ g.transactions, t ∈ ts) ∧
      (∀ u ∈ g.transactions, ∀ v ∈ g.transactions,
        getTransactionKey u = getTransactionKey v)) ∧
    List.Sorted groupDateLE (findDuplicates ts) ∧
    markDuplicates ts (findDuplicates ts) =
      ts.map (fun t =>
        { t with
          isDuplicate := some (((findDuplicates ts).flatMap
            (fun g => g.transactions.map (fun u => u.id))).contains t.id) }) := by
  refine ⟨?_, ?_, ?_⟩
  · intro g hg
    obtain ⟨k, hk, hlen, hfiles⟩ := findDuplicates_mem ts g hg
    refine ⟨hlen, hfiles, ?_, ?_⟩
    · intro t ht
      rw [hk] at ht
      exact (List.mem_filter.mp ht).1
    · intro u hu v hv
      rw [hk] at hu hv
      have hu' := of_decide_eq_true (List.mem_filter.mp hu).2
      have hv' := of_decide_eq_true (List.mem_filter.mp hv).2
      rw [hu', hv']
  · unfold findDuplicates
    exact List.sorted_insertionSort groupDateLE _
  · rfl

/-- Witness: the amended C2 theorem applied to the concrete group
returned on `dupList`. -/
theorem findDuplicates_markDuplicates_spec_witness :
    2 ≤ dupGroup.transactions.length ∧
      2 ≤ distinctCount (dupGroup.transactions.map (fun t => t.sourceFile)) := by
  have h := (findDuplicates_markDuplicates_spec dupList).1 dupGroup (by decide)
  exact ⟨h.1, h.2.1⟩

/-! ## Claim C5: removal keeps the first representative; idempotence -/

/-- Members of `ts` with equal ids are equal when ids are distinct. -/
theorem eq_of_id_eq {ts : List Transaction}
    (hids : (ts.map (fun t => t.id)).Nodup) {u v : Transaction}
    (hu : u ∈ ts) (hv : v ∈ ts) (h : u.id = v.id) : u = v :=
  List.inj_on_of_nodup_map hids hu hv h

/-- C5: with pairwise-distinct ids, composing `findDuplicates`,
`getTransactionsToRemove` and `removeDuplicates` keeps exactly the first
member of every duplicate group (in the group's original relative order)
and removes all the others; `removeDuplicates` is idempotent and total
(ids absent from the input are silently ignored). -/
theorem dedup_composition_spec (ts : List Transaction)
    (hids : (ts.map (fun t => t.id)).Nodup) :
    (∀ g ∈ findDuplicates ts, ∃ h rest, g.transactions = h :: rest ∧
      h ∈ removeDuplicates ts (getTransactionsToRemove (findDuplicates ts)) ∧
      ∀ t ∈ rest,
        t ∉ removeDuplicates ts (getTransactionsToRemove (findDuplicates ts))) ∧
    (∀ (ts' rm : List Transaction),
      removeDuplicates (removeDuplicates ts' rm) rm = removeDuplicates ts' rm) := by
  have hnodup : ts.Nodup := hids.of_map
  constructor
  · intro g hg
    obtain ⟨k, hk, hlen, _⟩ := findDuplicates_mem ts g hg
    rcases hsplit : g.transactions with _ | ⟨h, rest⟩
    · rw [hsplit] at hk hlen; simp at hlen
    · refine ⟨h, rest, rfl, ?_, ?_⟩
      · have hmemk : h ∈ keyFilter ts k := by
          rw [← hk, hsplit]; exact List.mem_cons_self _ _
        have hmem : h ∈ ts := (List.mem_filter.mp hmemk).1
        have hkey : getTransactionKey h = k :=
          of_decide_eq_true (List.mem_filter.mp hmemk).2
        rw [removeDuplicates, List.mem_filter]
        refine ⟨hmem, ?_⟩
        simp only [List.contains, List.elem_eq_mem, decide_not, Bool.not_eq_eq_eq_not,
          Bool.not_true, decide_eq_false_iff_not]
        intro hin
        obtain ⟨rid, hrid, hideq⟩ := List.mem_map.mp (of_decide_eq_true hin)
        obtain ⟨g', hg', hdrop⟩ := List.mem_flatMap.mp hrid
        obtain ⟨k', hk', _, _⟩ := findDuplicates_mem ts g' hg'
        have hridts : rid ∈ keyFilter ts k' := by
          rw [← hk']
          exact List.mem_of_mem_drop hdrop
        have hridmem : rid ∈ ts := (List.mem_filter.mp hridts).1
        have hridkey : getTransactionKey rid = k' :=
          of_decide_eq_true (List.mem_filter.mp hridts).2
        have heq : rid = h := eq_of_id_eq hids hridmem hmem hideq
        have hkk : k' = k := by rw [← hridkey, heq, hkey]
        have hgg : g'.transactions = g.transactions := by
          rw [hk, hk', hkk]
        rw [hgg, hsplit] at hdrop
        simp only [List.drop_succ_cons, List.drop_zero] at hdrop
        have hndk : (keyFilter ts k).Nodup := hnodup.filter _
        rw [← hk, hsplit, List.nodup_cons] at hndk
        exact hndk.1 (heq ▸ hdrop)
      · intro t ht
        intro hres
        rw [removeDuplicates, List.mem_filter] at hres
        have h2 := hres.2
        simp only [List.contains, List.elem_eq_mem, decide_not, Bool.not_eq_eq_eq_not,
          Bool.not_true, decide_eq_false_iff_not] at h2
        refine h2 (decide_eq_true (List.mem_map.mpr ⟨t, ?_, rfl⟩))
        refine List.mem_flatMap.mpr ⟨g, hg, ?_⟩
        rw [hsplit]
        simpa using ht
  · intro ts' rm
    unfold removeDuplicates
    rw [List.filter_filter]
    refine List.filter_congr ?_
    intro t _
    cases h : (rm.map (fun t => t.id)).contains t.id <;> simp [h]

/-- Witness: the C5 theorem applied to the concrete duplicate input
`dupList`: the first copy survives removal, the same-key later copies do
not. -/
theorem dedup_composition_spec_witness :
    dupTx "a.csv-0" "a.csv" ∈
      removeDuplicates dupList (getTransactionsToRemove (findDuplicates dupList)) ∧
    dupTx "a.csv-1" "a.csv" ∉
      removeDuplicates dupList (getTransactionsToRemove (findDuplicates dupList)) := by
  obtain ⟨h, rest, hsplit, hmem, hnot⟩ :=
    (dedup_composition_spec dupList (by decide)).1 dupGroup (by decide)
  have hsplit' : ([dupTx "a.csv-0" "a.csv", dupTx "a.csv-1" "a.csv",
      dupTx "b.csv-0" "b.csv"] : List Transaction) = h :: rest := hsplit
  injection hsplit' with h1 h2
  constructor
  · rw [h1]; exact hmem
  · refine hnot _ ?_
    rw [← h2]
    exact List.mem_cons_self _ _

/-! ## Claim C6: per-row ingestion, stable positional ids -/

/-- The id assigned to the data row with 0-based index `i`
(`{filename}-{i}`). -/
def mkRowId (filename : JSStr) (i : Nat) : JSStr :=
  filename ++ ('-' :: natStr i)

/-- Row ids are injective in the row index. -/
theorem mkRowId_injective {filename : JSStr} {i j : Nat}
    (h : mkRowId filename i = mkRowId filename j) : i = j := by
  unfold mkRowId at h
  have h2 := List.append_cancel_left h
  exact natStr_injective (List.cons.injEq .. |>.mp h2).2

/-- The claim's id sequence: one id per data row whose booking date is
non-blank after trimming, indexed over ALL data rows (skipped ones
included), in row order. -/
def rowIds (filename : JSStr) (headers : List JSStr) :
    Nat → List (List JSStr) → List JSStr
  | _, [] => []
  | i, row :: rest =>
      match validateRow (headers.zip row) with
      | none => []
      | some raw =>
          if jsTrim raw.bookingDate = [] then rowIds filename headers (i + 1) rest
          else mkRowId filename i :: rowIds filename headers (i + 1) rest

/-- Unfolding equation of `rowIds` on a cons cell. -/
theorem rowIds_cons (filename : JSStr) (headers : List JSStr) (i : Nat)
    (row : List JSStr) (rest : List (List JSStr)) :
    rowIds filename headers i (row :: rest) =
      match validateRow (headers.zip row) with
      | none => []
      | some raw =>
          if jsTrim raw.bookingDate = [] then rowIds filename headers (i + 1) rest
          else mkRowId filename i :: rowIds filename headers (i + 1) rest := rfl

/-- Indices underlying `rowIds` only grow. -/
theorem rowIds_ge (filename : JSStr) (headers : List JSStr) :
    ∀ (rows : List (List JSStr)) (i : Nat) (x : JSStr),
      x ∈ rowIds filename headers i rows → ∃ j, i ≤ j ∧ x = mkRowId filename j := by
  intro rows
  induction rows with
  | nil => intro i x h; simp [rowIds] at h
  | cons row rest ih =>
      intro i x h
      unfold rowIds at h
      rcases hv : validateRow (headers.zip row) with _ | raw <;> rw [hv] at h <;>
        dsimp only at h
      · simp at h
      · by_cases hb : jsTrim raw.bookingDate = []
        · rw [if_pos hb] at h
          obtain ⟨j, hj, hx⟩ := ih (i + 1) x h
          exact ⟨j, by omega, hx⟩
        · rw [if_neg hb] at h
          rcases List.mem_cons.mp h with rfl | h'
          · exact ⟨i, le_refl i, rfl⟩
          · obtain ⟨j, hj, hx⟩ := ih (i + 1) x h'
            exact ⟨j, by omega, hx⟩

/-- The id sequence has no duplicates: ids are unique within a file. -/
theorem rowIds_nodup (filename : JSStr) (headers : List JSStr) :
    ∀ (rows : List (List JSStr)) (i : Nat),
      (rowIds filename headers i rows).Nodup := by
  intro rows
  induction rows with
  | nil => intro i; simp [rowIds]
  | cons row rest ih =>
      intro i
      unfold rowIds
      rcases hv : validateRow (headers.zip row) with _ | raw <;> dsimp only
      · simp
      · by_cases hb : jsTrim raw.bookingDate = []
        · rw [if_pos hb]; exact ih (i + 1)
        · rw [if_neg hb]
          refine List.nodup_cons.mpr ⟨?_, ih (i + 1)⟩
          intro hmem
          obtain ⟨j, hj, hx⟩ := rowIds_ge filename headers rest (i + 1) _ hmem
          have := mkRowId_injective hx
          omega

/-- The row loop: on success, the transactions are exactly one per
non-blank-date validated row, in order, with positional ids and
trimmed/verbatim fields. -/
theorem parseRows_spec (filename : JSStr) (headers : List JSStr) :
    ∀ (rows : List (List JSStr)) (i : Nat) (txs : List Transaction),
      parseRows filename headers i rows = .ok txs →
      txs.map (fun t => t.id) = rowIds filename headers i rows ∧
      (∀ t ∈ txs, ∃ j row raw, rows[j]? = some row ∧
        validateRow (headers.zip row) = some raw ∧
        ¬ (jsTrim raw.bookingDate = []) ∧
        t.id = mkRowId filename (i + j) ∧
        parseNordeaDate raw.bookingDate = .ok t.date ∧
        parseEuropeanDecimal raw.amount = .ok t.amount ∧
        t.title = jsTrim raw.title ∧ t.name = jsTrim raw.name ∧
        t.message = jsTrim raw.message ∧
        t.referenceNumber = raw.referenceNumber ∧ t.sourceFile = filename) := by
  intro rows
  induction rows with
  | nil =>
      intro i txs h
      unfold parseRows at h
      cases Except.ok.inj h
      exact ⟨rfl, by intro t ht; simp at ht⟩
  | cons row rest ih =>
      intro i txs h
      unfold parseRows at h
      rcases hv : validateRow (headers.zip row) with _ | raw <;> rw [hv] at h <;>
        try dsimp only at h
      · exact absurd h (by simp)
      · rcases ht : transformRow filename i raw with e | ot <;> rw [ht] at h <;>
        try dsimp only at h
        · exact absurd h (by simp)
        · unfold transformRow at ht
          by_cases hb : jsTrim raw.bookingDate = []
          · rw [if_pos hb] at ht
            cases Except.ok.inj ht
            obtain ⟨hids, hall⟩ := ih (i + 1) txs h
            refine ⟨?_, ?_⟩
            · rw [rowIds_cons, hv]
              dsimp only
              rw [if_pos hb]
              exact hids
            · intro t htx
              obtain ⟨j, rw1, raw1, hj, hvr, hnb, hid, rest'⟩ := hall t htx
              exact ⟨j + 1, rw1, raw1, by simpa using hj, hvr, hnb,
                by rw [hid]; congr 1; omega, rest'⟩
          · rw [if_neg hb] at ht
            rcases hd : parseNordeaDate raw.bookingDate with _ | dt <;>
              rw [hd] at ht <;> try dsimp only at ht
            · exact absurd ht (by simp)
            · rcases ha : parseEuropeanDecimal raw.amount with _ | am <;>
                rw [ha] at ht <;> dsimp only at ht
              · exact absurd ht (by simp)
              · cases Except.ok.inj ht
                rcases hrec : parseRows filename headers (i + 1) rest
                  with e | ts' <;> rw [hrec] at h <;> try dsimp only at h
                · exact absurd h (by simp)
                · cases Except.ok.inj h
                  obtain ⟨hids, hall⟩ := ih (i + 1) ts' hrec
                  refine ⟨?_, ?_⟩
                  · rw [rowIds_cons, hv]
                    dsimp only
                    rw [if_neg hb]
                    simp only [List.map_cons, hids]
                    rfl
                  · intro t htx
                    rcases List.mem_cons.mp htx with rfl | htx'
                    · exact ⟨0, row, raw, by simp, hv, hb,
                        by simp [mkRowId], hd, ha, rfl, rfl, rfl, rfl, rfl⟩
                    · obtain ⟨j, rw1, raw1, hj, hvr, hnb, hid, rest'⟩ := hall t htx'
                      exact ⟨j + 1, rw1, raw1, by simpa using hj, hvr, hnb,
                        by rw [hid]; congr 1; omega, rest'⟩

/-- C6: on success, `parseNordeaCSV` yields exactly one transaction per
data row whose booking-date field is non-blank after trimming, in row
order; ids are `{label}-{rowIndex}` with the index counted over ALL data
rows (so ids are unique within a file); title, name and message are
trimmed, the reference number is kept verbatim. -/
theorem parseNordeaCSV_spec (content label : JSStr) (txs : List Transaction)
    (h : parseNordeaCSV content label = .ok txs) :
    ∃ headers dataRows, papaLines content = headers :: dataRows ∧
      txs.map (fun t => t.id) = rowIds label headers 0 dataRows ∧
      (txs.map (fun t => t.id)).Nodup ∧
      (∀ t ∈ txs, ∃ j row raw, dataRows[j]? = some row ∧
        validateRow (headers.zip row) = some raw ∧
        ¬ (jsTrim raw.bookingDate = []) ∧
        t.id = mkRowId label j ∧
        parseNordeaDate raw.bookingDate = .ok t.date ∧
        parseEuropeanDecimal raw.amount = .ok t.amount ∧
        t.title = jsTrim raw.title ∧ t.name = jsTrim raw.name ∧
        t.message = jsTrim raw.message ∧
        t.referenceNumber = raw.referenceNumber ∧ t.sourceFile = label) := by
  unfold parseNordeaCSV at h
  by_cases he : jsTrim content = []
  · rw [if_pos he] at h; exact absurd h (by simp)
  · rw [if_neg he] at h
    rcases hp : papaLines content with _ | ⟨headers, dataRows⟩ <;> rw [hp] at h <;>
      try dsimp only at h
    · exact absurd h (by simp)
    · by_cases hmis : dataRows.any (fun r => ¬ (r.length = headers.length))
      · rw [if_pos hmis] at h; exact absurd h (by simp)
      · rw [if_neg hmis] at h
        by_cases hnd : dataRows = []
        · rw [if_pos hnd] at h; exact absurd h (by simp)
        · rw [if_neg hnd] at h
          by_cases hcols :
              (expectedColumns.filter (fun c => ¬ headers.contains c)) ≠ []
          · rw [if_pos hcols] at h; exact absurd h (by simp)
          · rw [if_neg hcols] at h
            obtain ⟨hids, hall⟩ := parseRows_spec label headers dataRows 0 txs h
            refine ⟨headers, dataRows, rfl, hids, ?_, ?_⟩
            · rw [hids]; exact rowIds_nodup label headers dataRows 0
            · intro t ht
              obtain ⟨j, rw1, raw1, hj, hvr, hnb, hid, rest'⟩ := hall t ht
              exact ⟨j, rw1, raw1, hj, hvr, hnb,
                by rw [hid]; congr 1; omega, rest'⟩

/-- A concrete Nordea CSV with one skipped blank-date middle row. -/
def sampleCSV : JSStr :=
  jstr "Booking date;Amount;Sender;Recipient;Name;Title;Message;Reference number;Balance;Currency\n2024/5/1;-10,00;;;;SHOP;;00123;;EUR\n;;;;;;;;;\n2024/5/2;800,00;;;;ALEX R;;0042;;EUR"

/-- The transactions `parseNordeaCSV` produces on `sampleCSV`: row 1 is
skipped (blank date) but still counted in the ids. -/
def sampleTxs : List Transaction :=
  [⟨jstr "f.csv-0", ⟨2024, 5, 1⟩, -10, jstr "SHOP", jstr "", jstr "00123",
     jstr "", jstr "f.csv", none, none, none⟩,
   ⟨jstr "f.csv-2", ⟨2024, 5, 2⟩, 800, jstr "ALEX R", jstr "", jstr "0042",
     jstr "", jstr "f.csv", none, none, none⟩]

/-- Witness: the C6 theorem applied to the concrete `sampleCSV`; ids skip
index 1 (the blank-date row) yet stay unique. -/
theorem parseNordeaCSV_spec_witness :
    (sampleTxs.map (fun t => t.id)).Nodup ∧
      sampleTxs.map (fun t => t.id) =
        [mkRowId (jstr "f.csv") 0, mkRowId (jstr "f.csv") 2] := by
  obtain ⟨hs, dr, hp, hids, hnd, hall⟩ :=
    parseNordeaCSV_spec sampleCSV (jstr "f.csv") sampleTxs (by decide)
  exact ⟨hnd, by decide⟩

/-! ## Claim C7: multi-file ingestion, fail-fast and stable date sort -/

/-- The accumulation fold of `parseMultipleCSVs` equals mapping the
parser over the files and concatenating. -/
theorem parseMultipleCSVs_fold (files : List (JSStr × JSStr)) :
    ∀ acc : List Transaction,
      files.foldlM (fun (acc : List Transaction) (f : JSStr × JSStr) =>
        (match parseNordeaCSV f.2 f.1 with
         | .error e => .error e
         | .ok ts => .ok (acc ++ ts) : Except CSVParseError (List Transaction)))
        acc =
      (files.mapM (fun f => parseNordeaCSV f.2 f.1)).map
        (fun ls => acc ++ ls.flatten) := by
  induction files with
  | nil =>
      intro acc
      rw [List.mapM_nil]
      show (Except.ok acc : Except CSVParseError (List Transaction)) =
        Except.map (fun ls => acc ++ ls.flatten)
          (Except.ok ([] : List (List Transaction)))
      show _ = Except.ok (acc ++ ([] : List (List Transaction)).flatten)
      rw [show (([] : List (List Transaction)).flatten) = [] from rfl,
        List.append_nil]
  | cons f fs ih =>
      intro acc
      rw [List.foldlM_cons, List.mapM_cons]
      rcases hp : parseNordeaCSV f.2 f.1 with e | ts
      · rfl
      · show List.foldlM _ (acc ++ ts) fs = _
        rw [ih (acc ++ ts)]
        rcases hm : fs.mapM (fun f => parseNordeaCSV f.2 f.1) with e' | ls
        · rw [hm]
          rfl
        · rw [hm]
          show Except.ok ((acc ++ ts) ++ ls.flatten) = _
          rw [List.append_assoc]
          rfl

/-- `dateLE` is reflexive. -/
theorem dateLE_refl (a : NDate) : dateLE a a = true := by
  simp [dateLE]

/-- Filtering on one calendar date commutes with `orderedInsert`: the
inserted element lands in front of all equal-date elements. -/
theorem filter_orderedInsert (a : Transaction) (l : List Transaction) (d : NDate) :
    (l.orderedInsert txDateLE a).filter (fun t => t.date = d) =
      if a.date = d then a :: l.filter (fun t => t.date = d)
      else l.filter (fun t => t.date = d) := by
  rw [List.orderedInsert_eq_take_drop, List.filter_append]
  have htw : ∀ b ∈ l.takeWhile (fun b => decide ¬ txDateLE a b),
      dateLE a.date b.date = false := by
    intro b hb
    have := List.mem_takeWhile_imp hb
    simp only [decide_eq_true_eq, txDateLE] at this
    exact Bool.not_eq_true _ ▸ (by simpa using this)
  by_cases ha : a.date = d
  · have h1 : (l.takeWhile (fun b => decide ¬ txDateLE a b)).filter
        (fun t => decide (t.date = d)) = [] := by
      rw [List.filter_eq_nil_iff]
      intro b hb
      have hle := htw b hb
      simp only [decide_eq_true_eq]
      intro hbd
      have hba : b.date = a.date := by rw [hbd, ha]
      rw [hba, dateLE_refl] at hle
      simp at hle
    rw [if_pos ha, h1, List.nil_append, List.filter_cons]
    rw [if_pos (show decide (a.date = d) = true by simp [ha])]
    congr 1
    conv_rhs =>
      rw [← List.takeWhile_append_dropWhile
        (p := fun b => decide ¬ txDateLE a b) (l := l)]
    rw [List.filter_append, h1, List.nil_append]
  · rw [if_neg ha, List.filter_cons]
    rw [if_neg (show ¬ (decide (a.date = d) = true) by simp [ha])]
    rw [← List.filter_append, List.takeWhile_append_dropWhile]

/-- The stable insertion sort by date preserves the relative order of
equal-date elements: filtering on any single date gives back the
original-order subsequence. -/
theorem insertionSort_filter_date (d : NDate) : ∀ l : List Transaction,
    (l.insertionSort txDateLE).filter (fun t => t.date = d) =
      l.filter (fun t => t.date = d) := by
  intro l
  induction l with
  | nil => rfl
  | cons x l ih =>
      rw [List.insertionSort, filter_orderedInsert]
      by_cases hx : x.date = d
      · rw [if_pos hx, ih, List.filter_cons]
        simp [hx]
      · rw [if_neg hx, ih, List.filter_cons]
        simp [hx]

/-- The fold hits the first erroring file and propagates exactly its
error. -/
theorem parseMultipleCSVs_fold_err :
    ∀ (pre : List (JSStr × JSStr)) (acc : List Transaction)
      (f : JSStr × JSStr) (post : List (JSStr × JSStr)) (e : CSVParseError),
      (∀ g ∈ pre, (parseNordeaCSV g.2 g.1).isOk = true) →
      parseNordeaCSV f.2 f.1 = .error e →
      (pre ++ f :: post).foldlM
        (fun (acc : List Transaction) (f : JSStr × JSStr) =>
          (match parseNordeaCSV f.2 f.1 with
           | .error e => .error e
           | .ok ts => .ok (acc ++ ts) : Except CSVParseError (List Transaction)))
        acc = .error e := by
  intro pre
  induction pre with
  | nil =>
      intro acc f post e _ hf
      rw [List.nil_append, List.foldlM_cons, hf]
      rfl
  | cons g pre ih =>
      intro acc f post e hok hf
      have hg := hok g (List.mem_cons_self g pre)
      rcases hpg : parseNordeaCSV g.2 g.1 with e' | ts
      · rw [hpg] at hg; simp [Except.isOk, Except.toBool] at hg
      · rw [List.cons_append, List.foldlM_cons, hpg]
        show List.foldlM _ (acc ++ ts) (pre ++ f :: post) = _
        exact ih (acc ++ ts) f post e
          (fun g' hg' => hok g' (List.mem_cons_of_mem g hg')) hf

/-- C7: when every file parses, `parseMultipleCSVs` returns the per-file
results concatenated in file order and stably sorted ascending by date
(equal-date transactions keep their insertion order); when some file
fails, the call returns the FIRST failing file's error and exposes no
partial transaction list. -/
theorem parseMultipleCSVs_spec :
    (∀ (files : List (JSStr × JSStr)) (ls : List (List Transaction)),
      files.mapM (fun f => parseNordeaCSV f.2 f.1) = .ok ls →
      parseMultipleCSVs files = .ok (ls.flatten.insertionSort txDateLE) ∧
      List.Sorted txDateLE (ls.flatten.insertionSort txDateLE) ∧
      (ls.flatten.insertionSort txDateLE).Perm ls.flatten ∧
      (∀ d : NDate,
        (ls.flatten.insertionSort txDateLE).filter (fun t => t.date = d) =
          ls.flatten.filter (fun t => t.date = d))) ∧
    (∀ (pre post : List (JSStr × JSStr)) (f : JSStr × JSStr)
        (e : CSVParseError),
      (∀ g ∈ pre, (parseNordeaCSV g.2 g.1).isOk = true) →
      parseNordeaCSV f.2 f.1 = .error e →
      parseMultipleCSVs (pre ++ f :: post) = .error e) := by
  constructor
  · intro files ls hmap
    refine ⟨?_, List.sorted_insertionSort txDateLE _,
      List.perm_insertionSort txDateLE _, fun d => insertionSort_filter_date d _⟩
    unfold parseMultipleCSVs
    rw [parseMultipleCSVs_fold files [], hmap]
    show Except.ok ((([] : List Transaction) ++ ls.flatten).insertionSort txDateLE) =
      Except.ok (ls.flatten.insertionSort txDateLE)
    rw [List.nil_append]
  · intro pre post f e hok hf
    unfold parseMultipleCSVs
    rw [parseMultipleCSVs_fold_err pre [] f post e hok hf]

/-- Witness: the C7 theorem applied to the empty batch and to a batch
whose only file is empty (which errors). -/
theorem parseMultipleCSVs_spec_witness :
    parseMultipleCSVs [] = .ok (([] : List (List Transaction)).flatten.insertionSort txDateLE) ∧
    parseMultipleCSVs [(jstr "f.csv", jstr "")] =
      .error ⟨"CSV file is empty", jstr "f.csv", none⟩ := by
  constructor
  · exact (parseMultipleCSVs_spec.1 [] [] rfl).1
  · exact parseMultipleCSVs_spec.2 [] [] (jstr "f.csv", jstr "") _
      (by intro g hg; simp at hg) (by decide)
